import Mathlib

/-
Verification of the comply translation pipeline.

Go strings are modelled as lists of characters (`Str`).  Each definition
below is a direct translation of the corresponding Go function from
`internal/render/translate_templates.go`, `internal/path` and the
translated-rendering driver, keeping the source's names where Lean
allows it.  Filesystem and HTTP effects are modelled by explicit
oracles and event traces.
-/

/-- Go strings modelled as lists of characters. -/
abbrev Str := List Char

/-- Coerce a Lean string literal to the `Str` model. -/
def gs (s : String) : Str := s.data

deriving instance DecidableEq for Except

/-- The newline character used by `strings.Split(content, "\n")`. -/
def nlChar : Char := '\n'

/-- The dot separator used by the filename codec. -/
def dotChar : Char := '.'

/-- The path separator. -/
def slashChar : Char := '/'

/-- The hyphen tested by the language-tag heuristic. -/
def dashChar : Char := '-'

/-- Go `strings.Split(s, sep)` for a one-character separator `c`:
splits at every occurrence of `c`; the result is never empty and
splitting the empty string yields `[[]]`. -/
def splitOnChar (c : Char) : Str → List Str
  | [] => [[]]
  | x :: xs =>
    if x = c then [] :: splitOnChar c xs
    else
      match splitOnChar c xs with
      | [] => [[x]]
      | h :: t => (x :: h) :: t

/-- Go `strings.Join(parts, sep)` for a one-character separator. -/
def intercalateChar (c : Char) : List Str → Str
  | [] => []
  | [x] => x
  | x :: y :: xs => x ++ c :: intercalateChar c (y :: xs)

/-- The `strings.Join(lines, "\n")` as used by `extractSections`. -/
def joinLines (ls : List Str) : Str := intercalateChar nlChar ls

/-- The non-blank-run accumulator loop of `extractSections`
(`translate_templates.go`): a blank line flushes the current run and is
emitted as its own segment; the final run is flushed at end of input. -/
def extractLoop : List Str → List Str → List Str
  | [], cur => if cur.isEmpty then [] else [joinLines cur]
  | l :: ls, cur =>
    if l.isEmpty then
      (if cur.isEmpty then [[]] else [joinLines cur, []]) ++ extractLoop ls []
    else
      extractLoop ls (cur ++ [l])

/-- The `extractSections` from `translate_templates.go`: split the body on
newlines and group maximal runs of non-blank lines, emitting each blank
line as its own segment. -/
def extractSections (content : Str) : List Str :=
  extractLoop (splitOnChar nlChar content) []

/-- The pending-run view: the invariant target for `extractLoop`. -/
def mergePending (cur : List Str) (ls : List Str) : List Str :=
  if cur.isEmpty then ls else joinLines cur :: ls

/-- Go `strings.HasPrefix(s, pre)`. -/
def goHasPrefix (s pre : Str) : Bool := pre.isPrefixOf s

/-- Go `strings.HasSuffix(s, suf)`. -/
def goHasSuffix (s suf : Str) : Bool := suf.isSuffixOf s

/-- Substring search: true when `pat` occurs contiguously in the argument. -/
def containsSub (pat : Str) : Str → Bool
  | [] => pat.isEmpty
  | x :: xs => pat.isPrefixOf (x :: xs) || containsSub pat xs

/-- Go `strings.Contains(s, sub)`. -/
def goContains (s sub : Str) : Bool := containsSub sub s

/-- The ASCII white-space class of Go `unicode.IsSpace` as used by
`strings.TrimSpace` on ASCII text. -/
def isSpaceChar (c : Char) : Bool :=
  c = ' ' || c = '\t' || c = '\n' || c = '\r' || c = '\x0b' || c = '\x0c'

/-- Go `strings.TrimSpace`. -/
def trimSpace (s : Str) : Str :=
  ((s.dropWhile isSpaceChar).reverse.dropWhile isSpaceChar).reverse

/-- The `shouldTranslate` from `translate_templates.go`: decides whether a
section produced by `extractSections` is eligible for translation. -/
def shouldTranslate (sec : Str) : Bool :=
  let s := trimSpace sec
  if s.isEmpty then false
  else if goHasPrefix s (gs "---") || goHasSuffix s (gs "---") then false
  else if goHasPrefix s (gs "%") then false
  else if goContains s (gs "|") && (goContains s (gs "---") || goContains s (gs "Table:")) then false
  else if goHasPrefix s (gs "```") || goHasSuffix s (gs "```") then false
  else if goContains s (gs "header-includes:") || goContains s (gs "\\usepackage") then false
  else true

/-- The `errors.Wrapf(err, msg)` from pkg/errors: the wrapped message. -/
def wrapErr (msg : Str) (e : Str) : Str := msg ++ gs ": " ++ e

/-- Observable side effects of the pipeline, in order of occurrence. -/
inductive Event where
  | providerCalled (text : Str)
  | fileWritten (path content : Str)
  | preprocessed (path : Str)
  | pandocPdf (stem : Str)
  | fileRemoved (path : Str)

deriving DecidableEq

/-- The section loop of `TranslateDocument`: translate eligible sections,
keep the rest as-is, abort on the first provider error.  The event list
records the provider calls made, each carrying the section text handed to
`provider.Translate`. -/
def translateSectionsLoop (translate : Str → Except Str Str) :
    List Str → Except Str (List Str) × List Event
  | [] => (Except.ok [], [])
  | s :: rest =>
    if shouldTranslate s then
      match translate s with
      | Except.error e =>
        (Except.error (wrapErr (gs "failed to translate section") e),
         [Event.providerCalled s])
      | Except.ok t =>
        match translateSectionsLoop translate rest with
        | (Except.error e, evs) => (Except.error e, Event.providerCalled s :: evs)
        | (Except.ok ts, evs) => (Except.ok (t :: ts), Event.providerCalled s :: evs)
    else
      match translateSectionsLoop translate rest with
      | (Except.error e, evs) => (Except.error e, evs)
      | (Except.ok ts, evs) => (Except.ok (s :: ts), evs)

/-- The `TranslateDocument` from `translate_templates.go`, with the resolved
provider's per-section call abstracted as `translate`: classify the body
into sections, translate the eligible ones, and rejoin with newlines. -/
def TranslateDocument (translate : Str → Except Str Str) (content : Str) :
    Except Str Str × List Event :=
  match translateSectionsLoop translate (extractSections content) with
  | (Except.error e, evs) => (Except.error e, evs)
  | (Except.ok ts, evs) => (Except.ok (joinLines ts), evs)

/-- Go `filepath.Base` for cleaned paths without trailing slashes: the
final slash-separated element, or "." for the empty path. -/
def baseName (p : Str) : Str :=
  if p.isEmpty then gs "." else (splitOnChar slashChar p).getLastD []

/-- Go `filepath.Dir` for cleaned relative paths: everything before the
final slash-separated element, or "." when there is no slash. -/
def dirName (p : Str) : Str :=
  let parts := splitOnChar slashChar p
  if parts.length ≤ 1 then gs "."
  else intercalateChar slashChar parts.dropLast

/-- Go `filepath.Join(dir, name)` for cleaned inputs: "." or an empty
directory joins to the bare name. -/
def joinPath (dir name : Str) : Str :=
  if dir.isEmpty then name
  else if dir = gs "." then name
  else dir ++ slashChar :: name

/-- Scanner for `filepath.Ext`, run over the reversed path: collects the
(reversed) extension up to and including the first dot, stopping empty at
a path separator or at the start of the string. -/
def goExtRev : Str → Str
  | [] => []
  | c :: cs =>
    if c = slashChar then []
    else if c = dotChar then [dotChar]
    else
      match goExtRev cs with
      | [] => []
      | r => c :: r

/-- Go `filepath.Ext(path)`: the suffix beginning at the final dot in the
final slash-separated element, or "" when there is none. -/
def goExt (p : Str) : Str := (goExtRev p.reverse).reverse

/-- Go `strings.TrimSuffix`. -/
def trimSuffix (s suf : Str) : Str :=
  if goHasSuffix s suf then s.take (s.length - suf.length) else s

/-- The `generateTranslatedPath` from `translate_templates.go`: insert the
language tag as a new dot-separated component before the extension. -/
def generateTranslatedPath (originalPath lang : Str) : Str :=
  let dir := dirName originalPath
  let filename := baseName originalPath
  let ext := goExt filename
  let nameWithoutExt := trimSuffix filename ext
  let translatedFilename := nameWithoutExt ++ dotChar :: (lang ++ ext)
  joinPath dir translatedFilename

/-- The `extractLanguageFromFilename` from `internal/path`: the second-to-last
dot-separated part when there are at least three parts and that part
contains a hyphen or is exactly two characters long; "" otherwise.  The
`extension` argument is unused, as in the source. -/
def extractLanguageFromFilename (filename extension : Str) : Str :=
  let parts := splitOnChar dotChar filename
  if 3 ≤ parts.length then
    let langPart := parts.getD (parts.length - 2) []
    if 2 ≤ langPart.length ∧ (langPart.contains dashChar ∨ langPart.length = 2) then
      langPart
    else []
  else []

/-- The `isTemplateFile` from `translate_templates.go`: a file is a template
unless its base name starts with README or TODO, or its base name carries
a language-code-like second-to-last dot-separated part. -/
def isTemplateFile (path : Str) : Bool :=
  let filename := baseName path
  if goHasPrefix filename (gs "README") || goHasPrefix filename (gs "TODO") then false
  else
    let parts := splitOnChar dotChar filename
    if 3 ≤ parts.length then
      let langPart := parts.getD (parts.length - 2) []
      if 2 ≤ langPart.length ∧ (langPart.contains dashChar ∨ langPart.length = 2) then
        false
      else true
    else true

/-- Filesystem oracles: read results and `os.Stat` modification times. -/
structure FS where
  read : Str → Except Str Str
  stat : Str → Option Nat

/-- The `shouldSkipTranslation` from `translate_templates.go`: skip when the
translated file exists and its modification time is after or equal to the
original's; translate when either stat fails. -/
def shouldSkipTranslation (fs : FS) (originalPath translatedPath : Str) : Bool :=
  match fs.stat translatedPath with
  | none => false
  | some translatedMod =>
    match fs.stat originalPath with
    | none => false
    | some originalMod =>
      decide (originalMod < translatedMod) || decide (translatedMod = originalMod)

/-- Case-insensitive character comparison, as under the regexp `(?i)` flag. -/
def charIEq (a b : Char) : Bool := a.toLower = b.toLower

/-- Consume a literal word case-insensitively, returning the remainder. -/
def matchWordCI : Str → Str → Option Str
  | [], s => some s
  | _ :: _, [] => none
  | w :: ws, c :: cs => if charIEq w c then matchWordCI ws cs else none

/-- Greedy match of `\s*`. -/
def dropWS (s : Str) : Str := s.dropWhile isSpaceChar

/-- Greedy match of `\s+`: at least one white-space character. -/
def matchWS1 : Str → Option Str
  | [] => none
  | c :: cs => if isSpaceChar c then some (dropWS cs) else none

/-- Consume a `\s+`-separated word sequence case-insensitively. -/
def matchWordsCI : List Str → Str → Option Str
  | [], s => some s
  | [w], s => matchWordCI w s
  | w :: rest, s =>
    match matchWordCI w s with
    | none => none
    | some s1 =>
      match matchWS1 s1 with
      | none => none
      | some s2 => matchWordsCI rest s2

/-- One boilerplate-prefix pattern of `cleanDirectTranslationResponse`:
`(?i)^\s*<words>:?\s*\n?` applied with `ReplaceAllString(_, "")`; with the
start anchor it strips at most one leading match. -/
def stripPatternCI (words : List Str) (s : Str) : Str :=
  match matchWordsCI words (dropWS s) with
  | none => s
  | some rest =>
    let rest1 := match rest with
      | c :: cs => if c = ':' then cs else rest
      | [] => rest
    dropWS rest1

/-- The four boilerplate-prefix patterns of `cleanDirectTranslationResponse`,
applied in source order. -/
def cleanPrefixPatterns (s : Str) : Str :=
  let s1 := stripPatternCI [gs "here", gs "is", gs "the", gs "translated", gs "document"] s
  let s2 := stripPatternCI [gs "translated", gs "document"] s1
  let s3 := stripPatternCI [gs "result"] s2
  stripPatternCI [gs "translation"] s3

/-- ASCII letter test for the YAML-field pattern `[a-zA-Z]`. -/
def isAlphaChar (c : Char) : Bool :=
  (decide ('a' ≤ c) && decide (c ≤ 'z')) || (decide ('A' ≤ c) && decide (c ≤ 'Z'))

/-- ASCII letter-or-digit test for `[a-zA-Z0-9]`. -/
def isAlphaNumChar (c : Char) : Bool :=
  isAlphaChar c || (decide ('0' ≤ c) && decide (c ≤ '9'))

/-- The pattern `^[a-zA-Z][a-zA-Z0-9]*:\s*` of
`cleanDirectTranslationResponse`: a letter, alphanumerics, then a colon. -/
def yamlFieldStart (s : Str) : Bool :=
  match s with
  | [] => false
  | c :: cs => isAlphaChar c && goHasPrefix (cs.dropWhile isAlphaNumChar) (gs ":")

/-- The content-start test of `cleanDirectTranslationResponse`: a trimmed
line that is the frontmatter delimiter, looks like a YAML field, or is a
markdown heading. -/
def looksLikeContentStart (line : Str) : Bool :=
  let trimmed := trimSpace line
  decide (trimmed = gs "---") || yamlFieldStart trimmed || goHasPrefix trimmed (gs "#")

/-- Index of the first content-looking line, as scanned by
`cleanDirectTranslationResponse`; `none` when no line qualifies
(the source's `startIndex == -1`). -/
def findStartIndex : List Str → Option Nat
  | [] => none
  | l :: ls =>
    if looksLikeContentStart l then some 0
    else
      match findStartIndex ls with
      | none => none
      | some i => some (i + 1)

/-- The `cleanDirectTranslationResponse` from `translate_templates.go`: strip
known boilerplate prefixes, drop everything before the first
content-looking line when that line is not the first, and trim
surrounding white space.  The `original` argument is unused, as in the
source. -/
def cleanDirectTranslationResponse (response original : Str) : Str :=
  let result := cleanPrefixPatterns response
  let lines := splitOnChar nlChar result
  let result2 :=
    match findStartIndex lines with
    | some i => if 0 < i then joinLines (lines.drop i) else result
    | none => result
  trimSpace result2

/-- The instructional prompt of `TranslateTemplateDirect`, up to the
embedded document. -/
def directPromptPrefix (targetLang : Str) : Str :=
  gs "You are a professional translator. Your task is to translate a markdown template document while preserving its exact structure and format.\n\n**Instructions:**\n1. Translate the YAML metadata fields: `name` and `comment` values to " ++
  targetLang ++
  gs "\n2. Translate all content after the `---` separator to " ++
  targetLang ++
  gs "\n3. Keep all other YAML fields unchanged (acronym, satisfies, dates, etc.)\n4. Preserve all markdown formatting, template variables (like \x7b\x7b.Name\x7d\x7d), and document structure\n5. Return only the translated content with no additional comments or explanations\n6. Maintain the exact same line breaks and spacing as the original\n\n**Input document:**\n"

/-- The full structured prompt of `TranslateTemplateDirect`. -/
def directPrompt (content targetLang : Str) : Str :=
  directPromptPrefix targetLang ++ content ++ gs "\n\n**Target language:** " ++ targetLang

/-- The `TranslateTemplateDirect` from `translate_templates.go`, with the
provider's `Translate` abstracted as a function from the prompt text to a
result: one provider call on the structured prompt, then light cleanup. -/
def TranslateTemplateDirect (content sourceLang targetLang : Str)
    (provider : Str → Except Str Str) : Except Str Str :=
  match provider (directPrompt content targetLang) with
  | Except.error e =>
    Except.error (wrapErr (gs "failed to translate template using direct approach") e)
  | Except.ok result => Except.ok (cleanDirectTranslationResponse result content)

/-- The `translateSingleTemplate` from `translate_templates.go`, with provider
resolution abstracted: read the source, compute the target path, skip when
the translation is up to date, otherwise translate the whole content in
one provider call and write the result.  Returns the outcome and the trace
of provider calls and writes. -/
def translateSingleTemplate (fs : FS) (provider : Str → Except Str Str)
    (filePath targetLang : Str) : Except Str Unit × List Event :=
  match fs.read filePath with
  | Except.error e =>
    (Except.error (wrapErr (gs "unable to read file: " ++ filePath) e), [])
  | Except.ok content =>
    if shouldSkipTranslation fs filePath (generateTranslatedPath filePath targetLang) then
      (Except.ok (), [])
    else
      match TranslateTemplateDirect content (gs "en") targetLang provider with
      | Except.error e =>
        (Except.error (wrapErr (gs "translation failed for file: " ++ filePath) e),
         [Event.providerCalled (directPrompt content targetLang)])
      | Except.ok translatedContent =>
        (Except.ok (),
         [Event.providerCalled (directPrompt content targetLang),
          Event.fileWritten (generateTranslatedPath filePath targetLang) translatedContent])

/-- A filesystem in which the translated target is newer than its source. -/
def fsSkipFixture : FS where
  read := fun _ => Except.ok (gs "body")
  stat := fun p => if p = gs "patch.pt-BR.md" then some 5 else some 3

/-- A filesystem in which the translated target does not exist. -/
def fsFreshFixture : FS where
  read := fun _ => Except.ok (gs "body")
  stat := fun p => if p = gs "patch.md" then some 3 else none

/-- A filesystem in which every read fails. -/
def fsUnreadableFixture : FS where
  read := fun _ => Except.error (gs "permission denied")
  stat := fun _ => some 7

/-- A provider that always answers with a fixed translation. -/
def providerOkFixture : Str → Except Str Str := fun _ => Except.ok (gs "resultado")

/-- JSON values, as produced by `json.Unmarshal`. -/
inductive Json where
  | null
  | bool (b : Bool)
  | num (n : Int)
  | str (s : Str)
  | arr (elems : List Json)
  | obj (fields : List (Str × Json))

/-- Key lookup in an unmarshalled JSON object. -/
def jsonLookup (fields : List (Str × Json)) (key : Str) : Option Json :=
  match fields with
  | [] => none
  | (k, v) :: rest => if k = key then some v else jsonLookup rest key

/-- The error outcomes of the provider `makeRequest` implementations.
`apiRequestFailed` is `fmt.Errorf("API request failed: %s", body)`;
`unexpectedResponseFormat` is `fmt.Errorf("unexpected response format")`;
`jsonUnmarshal` stands for a `json.Unmarshal` error returned as-is;
`typeAssertionPanic` stands for the Go runtime panic raised by the
unchecked type assertion in the Ollama variant. -/
inductive ProviderError where
  | apiRequestFailed (body : Str)
  | jsonUnmarshal
  | unexpectedResponseFormat
  | typeAssertionPanic

deriving DecidableEq

/-- The user-visible message of a provider error; the exact `fmt.Errorf`
text for the two literal cases, abstract text for the runtime ones. -/
def providerErrorMessage : ProviderError → Str
  | ProviderError.apiRequestFailed body => gs "API request failed: " ++ body
  | ProviderError.jsonUnmarshal => gs "json: cannot unmarshal"
  | ProviderError.unexpectedResponseFormat => gs "unexpected response format"
  | ProviderError.typeAssertionPanic => gs "interface conversion"

/-- An HTTP response as observed by `makeRequest`: the status code, the
raw body, and the result of `json.Unmarshal` into a string-keyed map
(`none` when the body is not valid JSON or not an object). -/
structure HttpResponse where
  status : Nat
  body : Str
  json : Option (List (Str × Json))

/-- The `choices[0].message.content` extraction of the OpenAI
`makeRequest`: each step mirrors one checked type assertion. -/
def extractOpenAIContent (fields : List (Str × Json)) : Option Str :=
  match jsonLookup fields (gs "choices") with
  | some (Json.arr (choice :: _)) =>
    match choice with
    | Json.obj cf =>
      match jsonLookup cf (gs "message") with
      | some (Json.obj mf) =>
        match jsonLookup mf (gs "content") with
        | some (Json.str content) => some content
        | _ => none
      | _ => none
    | _ => none
  | _ => none

/-- The `content[0].text` extraction of the Anthropic `makeRequest`. -/
def extractAnthropicText (fields : List (Str × Json)) : Option Str :=
  match jsonLookup fields (gs "content") with
  | some (Json.arr (item :: _)) =>
    match item with
    | Json.obj itf =>
      match jsonLookup itf (gs "text") with
      | some (Json.str t) => some t
      | _ => none
    | _ => none
  | _ => none

/-- The `OpenAIProvider.makeRequest` from `translate_templates.go`, from the
point the HTTP response is in hand: non-success status fails with the raw
body, unparsable bodies fail with the unmarshal error, shape mismatches
fail with "unexpected response format", and the extracted content is
returned trimmed. -/
def openAIMakeRequest (resp : HttpResponse) : Except ProviderError Str :=
  if resp.status ≠ 200 then Except.error (ProviderError.apiRequestFailed resp.body)
  else
    match resp.json with
    | none => Except.error ProviderError.jsonUnmarshal
    | some fields =>
      match extractOpenAIContent fields with
      | some content => Except.ok (trimSpace content)
      | none => Except.error ProviderError.unexpectedResponseFormat

/-- The `AnthropicProvider.makeRequest` from `translate_templates.go`, same
policy with the Anthropic response shape. -/
def anthropicMakeRequest (resp : HttpResponse) : Except ProviderError Str :=
  if resp.status ≠ 200 then Except.error (ProviderError.apiRequestFailed resp.body)
  else
    match resp.json with
    | none => Except.error ProviderError.jsonUnmarshal
    | some fields =>
      match extractAnthropicText fields with
      | some t => Except.ok (trimSpace t)
      | none => Except.error ProviderError.unexpectedResponseFormat

/-- The `OllamaProvider.makeRequest` from `translate_templates.go`: a missing
or null `response` field falls through to "unexpected response format"; a
present non-string field hits the unchecked `.(string)` assertion and
panics (modelled as `typeAssertionPanic`). -/
def ollamaMakeRequest (resp : HttpResponse) : Except ProviderError Str :=
  if resp.status ≠ 200 then Except.error (ProviderError.apiRequestFailed resp.body)
  else
    match resp.json with
    | none => Except.error ProviderError.jsonUnmarshal
    | some fields =>
      match jsonLookup fields (gs "response") with
      | none => Except.error ProviderError.unexpectedResponseFormat
      | some Json.null => Except.error ProviderError.unexpectedResponseFormat
      | some (Json.str s) => Except.ok (trimSpace s)
      | some _ => Except.error ProviderError.typeAssertionPanic

/-- A string neither begins nor ends with white space. -/
def isTrimmed (s : Str) : Bool :=
  (match s.head? with
   | none => true
   | some c => !isSpaceChar c) &&
  (match s.getLast? with
   | none => true
   | some c => !isSpaceChar c)

/-- An OpenAI-shaped success response whose content carries surrounding
white space. -/
def openAIRespFixture : HttpResponse where
  status := 200
  body := gs "raw"
  json := some [(gs "choices", Json.arr [Json.obj [(gs "message",
    Json.obj [(gs "content", Json.str (gs " hola \n"))])]])]

/-- A provider whose HTTP call failed. -/
def providerFailFixture : Str → Except Str Str :=
  fun _ => Except.error (gs "API request failed: unauthorized")

/-- A `model.Document` as consumed by the translated-rendering driver:
only the fields the driver reads. -/
structure Document where
  name : Str
  body : Str
  fullPath : Str
  outputFilename : Str
  modifiedAt : Nat

deriving DecidableEq

/-- Association lookup in the staleness tracker state. -/
def lookupTime : List (Str × Nat) → Str → Option Nat
  | [], _ => none
  | (p, t) :: rest, path => if p = path then some t else lookupTime rest path

/-- Modelled from the spec: the Staleness Tracker operation `isNewer`,
whose Go implementation is outside `src/`: true unless this exact path
was previously recorded with a modification time at or after the given
one. -/
def isNewer (st : List (Str × Nat)) (path : Str) (modTime : Nat) : Bool :=
  match lookupTime st path with
  | none => true
  | some t => decide (t < modTime)

/-- Modelled from the spec: the Staleness Tracker operation
`recordModified`, whose Go implementation is outside `src/`: it
unconditionally stores or overwrites the record for the path. -/
def recordModified (st : List (Str × Nat)) (path : Str) (modTime : Nat) :
    List (Str × Nat) :=
  (path, modTime) :: st.filter (fun pr => decide (pr.1 ≠ path))

/-- External collaborators of `renderTranslatedDocument`: preprocessing,
file reads and writes, the per-section provider call, and the existing
`pandoc` renderer invoked with an output-file stem. -/
structure RenderOps where
  preprocess : Str → Except Str Unit
  readFile : Str → Except Str Str
  writeFile : Str → Str → Except Str Unit
  translate : Str → Except Str Str
  pandocRun : Str → Except Str Unit

/-- The pandoc argument list of `generateTranslatedPDF`. -/
def pandocArgsPDF (outputPath mdPath : Str) : List Str :=
  [gs "-f", gs "markdown+smart", gs "--toc", gs "-N", gs "--template",
   gs "templates/default.latex", gs "-o", outputPath, mdPath]

/-- The pandoc argument list of `generateTranslatedHTML`. -/
def pandocArgsHTML (outputPath mdPath : Str) : List Str :=
  [gs "-f", gs "markdown+smart", gs "--toc", gs "-N", gs "-s", gs "-o",
   outputPath, mdPath]

/-- The `runPandoc` from the translated-rendering driver: when the
second-to-last argument ends in ".pdf", call the existing `pandoc`
infrastructure on the output-file stem; when it ends in ".html", return
success without invoking any renderer (the source's explicit stub);
otherwise fail with "unsupported pandoc output format". -/
def runPandoc (ops : RenderOps) (args : List Str) : Except Str Unit × List Event :=
  if 2 ≤ args.length ∧ goHasSuffix (args.getD (args.length - 2) []) (gs ".pdf") = true then
    let outputFile := baseName (args.getD (args.length - 2) [])
    let stem := trimSuffix outputFile (gs ".pdf")
    (ops.pandocRun stem, [Event.pandocPdf stem])
  else if 2 ≤ args.length ∧ goHasSuffix (args.getD (args.length - 2) []) (gs ".html") = true then
    (Except.ok (), [])
  else
    (Except.error (gs "unsupported pandoc output format"), [])

/-- The `generateTranslatedPDF` from the translated-rendering driver. -/
def generateTranslatedPDF (ops : RenderOps) (mdPath outputDir outputFilename targetLang : Str) :
    Except Str Unit × List Event :=
  runPandoc ops (pandocArgsPDF
    (joinPath outputDir (outputFilename ++ gs "_" ++ targetLang ++ gs ".pdf")) mdPath)

/-- The `generateTranslatedHTML` from the translated-rendering driver. -/
def generateTranslatedHTML (ops : RenderOps) (mdPath outputDir outputFilename targetLang : Str) :
    Except Str Unit × List Event :=
  runPandoc ops (pandocArgsHTML
    (joinPath outputDir (outputFilename ++ gs "_" ++ targetLang ++ gs ".html")) mdPath)

/-- The `renderTranslatedDocument` from the translated-rendering driver:
skip already-processed documents, record the (path, time) pair before any
work, preprocess, read, translate section-by-section, write the tagged
markdown, render by format, and delete the two intermediates on success.
Returns the outcome, the tracker state, and the event trace. -/
def renderTranslatedDocument (ops : RenderOps) (st : List (Str × Nat)) (doc : Document)
    (outputDir targetLang format : Str) :
    Except Str Unit × List (Str × Nat) × List Event :=
  if !(isNewer st doc.fullPath doc.modifiedAt) then (Except.ok (), st, [])
  else
    let st1 := recordModified st doc.fullPath doc.modifiedAt
    let preprocessedPath := joinPath outputDir (doc.outputFilename ++ gs ".md")
    match ops.preprocess preprocessedPath with
    | Except.error e =>
      (Except.error (wrapErr (gs "unable to preprocess document for translation") e), st1,
       [Event.preprocessed preprocessedPath])
    | Except.ok () =>
      match ops.readFile preprocessedPath with
      | Except.error e =>
        (Except.error (wrapErr (gs "unable to read preprocessed document") e), st1,
         [Event.preprocessed preprocessedPath])
      | Except.ok content =>
        match TranslateDocument ops.translate content with
        | (Except.error e, evs) =>
          (Except.error (wrapErr (gs "translation failed for document: " ++ doc.name) e),
           st1, Event.preprocessed preprocessedPath :: evs)
        | (Except.ok translatedContent, evs) =>
          let translatedPath :=
            joinPath outputDir (doc.outputFilename ++ gs "_" ++ targetLang ++ gs ".md")
          match ops.writeFile translatedPath translatedContent with
          | Except.error e =>
            (Except.error (wrapErr (gs "unable to write translated markdown") e), st1,
             Event.preprocessed preprocessedPath :: evs)
          | Except.ok () =>
            let written := Event.preprocessed preprocessedPath :: evs ++
              [Event.fileWritten translatedPath translatedContent]
            let rendered :=
              if format = gs "pdf" then
                generateTranslatedPDF ops translatedPath outputDir doc.outputFilename targetLang
              else if format = gs "html" then
                generateTranslatedHTML ops translatedPath outputDir doc.outputFilename targetLang
              else (Except.ok (), [])
            match rendered with
            | (Except.error e, revs) => (Except.error e, st1, written ++ revs)
            | (Except.ok (), revs) =>
              (Except.ok (), st1, written ++ revs ++
               [Event.fileRemoved preprocessedPath, Event.fileRemoved translatedPath])

/-- Oracles for a fully successful render run with identity translation. -/
def renderOpsFixture : RenderOps where
  preprocess := fun _ => Except.ok ()
  readFile := fun _ => Except.ok (gs "# Purpose\na. text.")
  writeFile := fun _ _ => Except.ok ()
  translate := fun s => Except.ok s
  pandocRun := fun _ => Except.ok ()

/-- A concrete policy document. -/
def docFixture : Document where
  name := gs "Access Policy"
  body := gs ""
  fullPath := gs "policies/access.md"
  outputFilename := gs "access"
  modifiedAt := 10

/-- True exactly on a successful outcome. -/
def isOkUnit : Except Str Unit → Bool
  | Except.ok _ => true
  | Except.error _ => false

/-- True when the trace contains an invocation of the external renderer. -/
def hasPandocEvent : List Event → Bool
  | [] => false
  | Event.pandocPdf _ :: _ => true
  | _ :: rest => hasPandocEvent rest

/-- The three document collections processed by a rendering batch. -/
structure RenderData where
  policies : List Document
  procedures : List Document
  narratives : List Document

deriving DecidableEq

/-- One sequential loop of a rendering batch: invoke `process` on each
document in order; on the first failure, report the wrapped error and
stop.  The second component lists the documents on which `process` was
invoked. -/
def processDocs (process : Document → Except Str Unit) (wrapMsg : Str) :
    List Document → Option Str × List Document
  | [] => (none, [])
  | d :: ds =>
    match process d with
    | Except.error e => (some (wrapErr (wrapMsg ++ d.name) e), [d])
    | Except.ok _ =>
      match processDocs process wrapMsg ds with
      | (res, done) => (res, d :: done)

/-- The `pdfTranslated` from the translated-rendering driver, with
`getRenderData` and the per-document call abstracted: process policies,
procedures and narratives sequentially; the first failure is sent on the
batch's error channel and the function returns, processing nothing
further; otherwise nil is sent.  The second component lists the documents
processed. -/
def pdfTranslated (process : Document → Except Str Unit)
    (dataE : Except Str RenderData) : Option Str × List Document :=
  match dataE with
  | Except.error e =>
    (some (wrapErr (gs "unable to get render data for translation") e), [])
  | Except.ok data =>
    match processDocs process (gs "unable to render translated policy: ") data.policies with
    | (some e, done) => (some e, done)
    | (none, done1) =>
      match processDocs process (gs "unable to render translated procedure: ")
        data.procedures with
      | (some e, done) => (some e, done1 ++ done)
      | (none, done2) =>
        match processDocs process (gs "unable to render translated narrative: ")
          data.narratives with
        | (some e, done) => (some e, done1 ++ done2 ++ done)
        | (none, done3) => (none, done1 ++ done2 ++ done3)

/-- The `htmlTranslated` from the translated-rendering driver: the same
sequential structure as `pdfTranslated` with the HTML wrap messages. -/
def htmlTranslated (process : Document → Except Str Unit)
    (dataE : Except Str RenderData) : Option Str × List Document :=
  match dataE with
  | Except.error e =>
    (some (wrapErr (gs "unable to get render data for HTML translation") e), [])
  | Except.ok data =>
    match processDocs process (gs "unable to render translated policy HTML: ")
      data.policies with
    | (some e, done) => (some e, done)
    | (none, done1) =>
      match processDocs process (gs "unable to render translated procedure HTML: ")
        data.procedures with
      | (some e, done) => (some e, done1 ++ done)
      | (none, done2) =>
        match processDocs process (gs "unable to render translated narrative HTML: ")
          data.narratives with
        | (some e, done) => (some e, done1 ++ done2 ++ done)
        | (none, done3) => (none, done1 ++ done2 ++ done3)

/-- The inner language loop of `TranslateTemplates`: translate one file
to each language in order, aborting on the first failure with the wrapped
error.  The second component lists the attempted (file, language) pairs. -/
def translateLangsLoop (translateOne : Str → Str → Except Str Unit) (f : Str) :
    List Str → Except Str Unit × List (Str × Str)
  | [] => (Except.ok (), [])
  | l :: ls =>
    match translateOne f l with
    | Except.error e =>
      (Except.error (wrapErr (gs "failed to translate " ++ f ++ gs " to " ++ l) e), [(f, l)])
    | Except.ok _ =>
      match translateLangsLoop translateOne f ls with
      | (res, pairs) => (res, (f, l) :: pairs)

/-- The outer file loop of `TranslateTemplates` (files outer, languages
inner), aborting the whole run on the first per-file-per-language
failure. -/
def translateFilesLoop (translateOne : Str → Str → Except Str Unit) :
    List Str → List Str → Except Str Unit × List (Str × Str)
  | [], _ => (Except.ok (), [])
  | f :: fs, langs =>
    match translateLangsLoop translateOne f langs with
    | (Except.error e, pairs) => (Except.error e, pairs)
    | (Except.ok _, pairs) =>
      match translateFilesLoop translateOne fs langs with
      | (res, pairs2) => (res, pairs ++ pairs2)

/-- The translation block of `comply.yml`. -/
structure TranslationConfig where
  enabled : Bool
  languages : List Str
  provider : Str
  model : Str

/-- The `TranslateTemplates` from `translate_templates.go`, with file
resolution and the per-file translation abstracted: resolve the
configuration, fail when translation is disabled, no language is
configured or no provider resolves, then drive the file × language loop,
aborting on the first failure. -/
def TranslateTemplates (translation : Option TranslationConfig)
    (providerArg : Str) (filesE : Except Str (List Str))
    (translateOne : Str → Str → Except Str Unit) :
    Except Str Unit × List (Str × Str) :=
  match translation with
  | none => (Except.error (gs "translation not enabled in comply.yml"), [])
  | some tc =>
    if !tc.enabled then (Except.error (gs "translation not enabled in comply.yml"), [])
    else if tc.languages.isEmpty then
      (Except.error (gs "no languages configured for translation"), [])
    else if (if providerArg.isEmpty then tc.provider else providerArg).isEmpty then
      (Except.error (gs "no translation provider specified"), [])
    else
      match filesE with
      | Except.error e => (Except.error e, [])
      | Except.ok files =>
        if files.isEmpty then (Except.ok (), [])
        else translateFilesLoop translateOne files tc.languages

/-- A policy document that will fail processing in the counterexample. -/
def docA : Document :=
  { name := gs "A", body := [], fullPath := gs "policies/a.md",
    outputFilename := gs "a", modifiedAt := 1 }

/-- A policy document listed after `docA` in the batch. -/
def docB : Document :=
  { name := gs "B", body := [], fullPath := gs "policies/b.md",
    outputFilename := gs "b", modifiedAt := 1 }

/-- A two-policy batch. -/
def batchAB : RenderData :=
  { policies := [docA, docB], procedures := [], narratives := [] }

/-- A per-document processor that fails exactly on `docA`. -/
def processFailA : Document → Except Str Unit :=
  fun d => if d.name = gs "A" then Except.error (gs "boom") else Except.ok ()

/-- A per-document processor that fails exactly on `docB`. -/
def processFailB : Document → Except Str Unit :=
  fun d => if d.name = gs "B" then Except.error (gs "boom") else Except.ok ()

/-- A per-pair translator that fails exactly on language "fr". -/
def translateFailFr : Str → Str → Except Str Unit :=
  fun _ l => if l = gs "fr" then Except.error (gs "fail") else Except.ok ()

/-- The per-section instructional prompt shared by the three provider
`Translate` implementations in `translate_templates.go`, up to the
embedded text. -/
def compliancePromptPrefix (sourceLang targetLang : Str) : Str :=
  gs "You are a professional compliance document translator. Translate the following text from " ++
  sourceLang ++ gs " to " ++ targetLang ++
  gs " exactly as written, preserving all formatting, markdown syntax, YAML frontmatter, and technical terms. Do not add any comments, explanations, or additional content. Return only the translated text.\n\n"

/-- The full prompt a provider variant posts for one piece of text. -/
def complianceTranslatePrompt (sourceLang targetLang text : Str) : Str :=
  compliancePromptPrefix sourceLang targetLang ++ text

theorem splitOnChar_ne_nil (c : Char) (s : Str) : splitOnChar c s ≠ [] := by
  cases s with
  | nil => simp [splitOnChar]
  | cons x xs =>
    simp only [splitOnChar]
    split
    · simp
    · split <;> simp

theorem intercalateChar_cons_cons (c : Char) (x : Char) (h : Str) (t : List Str) :
    intercalateChar c ((x :: h) :: t) = x :: intercalateChar c (h :: t) := by
  cases t <;> simp [intercalateChar]

/-- Joining the split on `c` with `c` reproduces the string: the exact
round-trip of Go's `strings.Join(strings.Split(s, sep), sep) == s`. -/
theorem intercalateChar_splitOnChar (c : Char) (s : Str) :
    intercalateChar c (splitOnChar c s) = s := by
  induction s with
  | nil => simp [splitOnChar, intercalateChar]
  | cons x xs ih =>
    simp only [splitOnChar]
    by_cases hx : x = c
    · simp only [hx, if_pos rfl]
      obtain ⟨h, t, ht⟩ : ∃ h t, splitOnChar c xs = h :: t := by
        cases hsp : splitOnChar c xs with
        | nil => exact absurd hsp (splitOnChar_ne_nil c xs)
        | cons h t => exact ⟨h, t, rfl⟩
      rw [ht]
      rw [ht] at ih
      simp [intercalateChar, ih]
    · simp only [if_neg hx]
      obtain ⟨h, t, ht⟩ : ∃ h t, splitOnChar c xs = h :: t := by
        cases hsp : splitOnChar c xs with
        | nil => exact absurd hsp (splitOnChar_ne_nil c xs)
        | cons h t => exact ⟨h, t, rfl⟩
      rw [ht]
      rw [ht] at ih
      rw [intercalateChar_cons_cons, ih]

/-- Splitting distributes over an explicit occurrence of the separator. -/
theorem splitOnChar_append (c : Char) (a b : Str) :
    splitOnChar c (a ++ c :: b) = splitOnChar c a ++ splitOnChar c b := by
  induction a with
  | nil => simp [splitOnChar]
  | cons x xs ih =>
    simp only [List.cons_append, splitOnChar, List.append_eq]
    by_cases hx : x = c
    · simp [hx, ih]
    · simp only [if_neg hx]
      obtain ⟨h, t, ht⟩ : ∃ h t, splitOnChar c xs = h :: t := by
        cases hsp : splitOnChar c xs with
        | nil => exact absurd hsp (splitOnChar_ne_nil c xs)
        | cons h t => exact ⟨h, t, rfl⟩
      rw [ih, ht]
      simp

/-- A string free of the separator splits into itself alone. -/
theorem splitOnChar_of_not_mem (c : Char) (a : Str) (h : c ∉ a) :
    splitOnChar c a = [a] := by
  induction a with
  | nil => simp [splitOnChar]
  | cons x xs ih =>
    simp only [List.mem_cons, not_or] at h
    have hx : ¬ x = c := fun hxc => h.1 hxc.symm
    simp [splitOnChar, if_neg hx, ih h.2]

theorem joinLines_cons (x : Str) (ls : List Str) (h : ls ≠ []) :
    joinLines (x :: ls) = x ++ nlChar :: joinLines ls := by
  cases ls with
  | nil => exact absurd rfl h
  | cons a b => simp [joinLines, intercalateChar]

theorem joinLines_append (xs ys : List Str) (hx : xs ≠ []) (hy : ys ≠ []) :
    joinLines (xs ++ ys) = joinLines xs ++ nlChar :: joinLines ys := by
  induction xs with
  | nil => exact absurd rfl hx
  | cons x xs ih =>
    cases xs with
    | nil =>
      rw [List.singleton_append, joinLines_cons x ys hy]
      simp [joinLines, intercalateChar]
    | cons z zs =>
      rw [List.cons_append, joinLines_cons x ((z :: zs) ++ ys) (by simp),
        joinLines_cons x (z :: zs) (by simp), ih (by simp)]
      simp

theorem joinLines_append_single (xs : List Str) (y : Str) (hxs : xs ≠ []) :
    joinLines (xs ++ [y]) = joinLines xs ++ nlChar :: y := by
  rw [joinLines_append xs [y] hxs (by simp)]
  simp [joinLines, intercalateChar]

theorem extractLoop_ne_nil (ls : List Str) (cur : List Str) (h : ls ≠ []) :
    extractLoop ls cur ≠ [] := by
  induction ls generalizing cur with
  | nil => exact absurd rfl h
  | cons l ls ih =>
    simp only [extractLoop]
    by_cases hl : l.isEmpty
    · simp only [if_pos hl]
      split <;> simp
    · simp only [if_neg hl]
      cases ls with
      | nil => simp [extractLoop]
      | cons a b => exact ih _ (by simp)

theorem extractLoop_nil_iff (ls : List Str) :
    extractLoop ls [] = [] ↔ ls = [] := by
  constructor
  · intro h
    by_contra hne
    exact extractLoop_ne_nil ls [] hne h
  · intro h
    subst h
    simp [extractLoop]

theorem extractLoop_join (ls : List Str) (cur : List Str) :
    joinLines (extractLoop ls cur) = joinLines (mergePending cur ls) := by
  induction ls generalizing cur with
  | nil =>
    rcases cur with _ | ⟨c, cs⟩
    · simp [extractLoop, mergePending]
    · simp [extractLoop, mergePending, joinLines, intercalateChar]
  | cons l ls ih =>
    rcases hl : l with _ | ⟨a, as⟩
    · -- blank line: flush the pending run, emit a blank segment
      have step : extractLoop ([] :: ls) cur =
          (if cur.isEmpty then [[]] else [joinLines cur, []]) ++ extractLoop ls [] := by
        simp [extractLoop]
      rw [step]
      rcases hls : ls with _ | ⟨m, ms⟩
      · have hnil : extractLoop ([] : List Str) ([] : List Str) = [] := by
          simp [extractLoop]
        rw [hnil, List.append_nil]
        rcases cur with _ | ⟨c, cs⟩
        · simp [mergePending, joinLines, intercalateChar]
        · simp [mergePending, joinLines, intercalateChar]
      · have hlsne : (m :: ms) ≠ ([] : List Str) := by simp
        have hne : extractLoop (m :: ms) [] ≠ [] := extractLoop_ne_nil _ _ (by simp)
        have hrec := ih ([] : List Str)
        simp only [mergePending, List.isEmpty_nil, if_pos] at hrec
        rw [hls] at hrec
        rcases cur with _ | ⟨c, cs⟩
        · simp only [List.isEmpty_nil, if_pos, mergePending]
          rw [List.singleton_append, joinLines_cons [] (extractLoop (m :: ms) []) hne,
            hrec, joinLines_cons [] (m :: ms) hlsne]
        · simp only [List.isEmpty_cons, if_neg Bool.false_ne_true, mergePending]
          rw [joinLines_append [joinLines (c :: cs), []] (extractLoop (m :: ms) [])
            (by simp) hne, hrec]
          rw [joinLines_cons (joinLines (c :: cs)) [[]] (by simp)]
          rw [joinLines_cons (joinLines (c :: cs)) ([] :: m :: ms) (by simp)]
          rw [joinLines_cons [] (m :: ms) hlsne]
          simp [joinLines, intercalateChar]
    · -- non-blank line: extend the pending run
      have step : extractLoop ((a :: as) :: ls) cur = extractLoop ls (cur ++ [a :: as]) := by
        simp [extractLoop]
      rw [step, ih (cur ++ [a :: as])]
      rcases cur with _ | ⟨c, cs⟩
      · simp only [List.nil_append, mergePending, List.isEmpty_nil, if_pos,
          List.isEmpty_cons, if_neg Bool.false_ne_true]
        have : joinLines [a :: as] = a :: as := by simp [joinLines, intercalateChar]
        rw [this]
      · simp only [mergePending, List.isEmpty_cons, if_neg Bool.false_ne_true]
        have hcl : ((c :: cs) ++ [a :: as] : List Str).isEmpty = false := by simp
        rw [if_neg (by simp [hcl])]
        rw [joinLines_append_single (c :: cs) (a :: as) (by simp)]
        rcases hls : ls with _ | ⟨m, ms⟩
        · simp [joinLines, intercalateChar]
        · rw [joinLines_cons _ (m :: ms) (by simp),
            joinLines_cons (joinLines (c :: cs)) ((a :: as) :: m :: ms) (by simp),
            joinLines_cons (a :: as) (m :: ms) (by simp)]
          simp

theorem extractSections_join (content : Str) :
    joinLines (extractSections content) = content := by
  unfold extractSections
  rw [extractLoop_join]
  simp only [mergePending, List.isEmpty_nil, if_pos]
  exact intercalateChar_splitOnChar nlChar content

theorem translateSectionsLoop_id (secs : List Str) :
    (translateSectionsLoop (fun s => Except.ok s) secs).1 = Except.ok secs := by
  induction secs with
  | nil => simp [translateSectionsLoop]
  | cons s rest ih =>
    simp only [translateSectionsLoop]
    by_cases hs : shouldTranslate s
    · simp only [if_pos hs]
      cases hrec : translateSectionsLoop (fun s => Except.ok s) rest with
      | mk res evs =>
        rw [hrec] at ih
        cases res with
        | error e => exact absurd ih.symm (by simp)
        | ok ts =>
          simp only at ih
          cases ih
          rfl
    · simp only [if_neg hs]
      cases hrec : translateSectionsLoop (fun s => Except.ok s) rest with
      | mk res evs =>
        rw [hrec] at ih
        cases res with
        | error e => exact absurd ih.symm (by simp)
        | ok ts =>
          simp only at ih
          cases ih
          rfl

/-- C1: joining the segments produced by `extractSections` with newline
separators reproduces the original body byte-for-byte, and consequently
`TranslateDocument` with an identity translation returns its input
unchanged. -/
theorem c1_segment_roundtrip (content : Str) :
    joinLines (extractSections content) = content ∧
    (TranslateDocument (fun s => Except.ok s) content).1 = Except.ok content := by
  refine ⟨extractSections_join content, ?_⟩
  unfold TranslateDocument
  cases hrec : translateSectionsLoop (fun s => Except.ok s) (extractSections content) with
  | mk res evs =>
    have hid := translateSectionsLoop_id (extractSections content)
    rw [hrec] at hid
    cases res with
    | error e => exact absurd hid.symm (by simp)
    | ok ts =>
      simp only at hid
      cases hid
      simp [extractSections_join]

theorem baseName_of_no_slash (p : Str) (hp : p ≠ []) (h : slashChar ∉ p) :
    baseName p = p := by
  unfold baseName
  rw [if_neg (by simpa [List.isEmpty_iff] using hp)]
  rw [splitOnChar_of_not_mem _ _ h]
  rfl

theorem dirName_of_no_slash (p : Str) (h : slashChar ∉ p) : dirName p = gs "." := by
  unfold dirName
  rw [splitOnChar_of_not_mem _ _ h]
  rfl

theorem joinPath_dot (name : Str) : joinPath (gs ".") name = name := by
  unfold joinPath
  rw [if_neg (by decide), if_pos rfl]

theorem goExtRev_spec (r : Str) (h : goExtRev r ≠ []) :
    ∃ a rest, r = a ++ dotChar :: rest ∧ goExtRev r = a ++ [dotChar] ∧
      dotChar ∉ a ∧ slashChar ∉ a := by
  induction r with
  | nil => simp [goExtRev] at h
  | cons c cs ih =>
    by_cases hs : c = slashChar
    · simp [goExtRev, hs] at h
    · by_cases hd : c = dotChar
      · refine ⟨[], cs, by simp [hd], ?_, by simp, by simp⟩
        subst hd
        simp [goExtRev, show ¬ dotChar = slashChar by decide]
      · have hrec : goExtRev cs ≠ [] := by
          intro hnil
          apply h
          simp [goExtRev, hs, hd, hnil]
        obtain ⟨a, rest, h1, h2, h3, h4⟩ := ih hrec
        have hstep : goExtRev (c :: cs) = c :: goExtRev cs := by
          obtain ⟨x, xs, hg⟩ : ∃ x xs, goExtRev cs = x :: xs := by
            cases hg : goExtRev cs with
            | nil => exact absurd hg hrec
            | cons x xs => exact ⟨x, xs, rfl⟩
          simp only [goExtRev, if_neg hs, if_neg hd, hg]
        refine ⟨c :: a, rest, by simp [h1], by rw [hstep, h2]; simp, ?_, ?_⟩
        · intro hm
          rcases List.mem_cons.mp hm with h' | h'
          · exact hd h'.symm
          · exact h3 h'
        · intro hm
          rcases List.mem_cons.mp hm with h' | h'
          · exact hs h'.symm
          · exact h4 h'

theorem goExt_spec (f : Str) (h : goExt f ≠ []) :
    ∃ stem extRest, f = stem ++ dotChar :: extRest ∧
      goExt f = dotChar :: extRest ∧ dotChar ∉ extRest ∧ slashChar ∉ extRest := by
  have hrev : goExtRev f.reverse ≠ [] := by
    intro hnil
    apply h
    simp [goExt, hnil]
  obtain ⟨a, rest, h1, h2, h3, h4⟩ := goExtRev_spec f.reverse hrev
  refine ⟨rest.reverse, a.reverse, ?_, ?_, by simpa [List.mem_reverse] using h3,
    by simpa [List.mem_reverse] using h4⟩
  · have := congrArg List.reverse h1
    simp only [List.reverse_reverse] at this
    rw [this]
    simp [List.reverse_append]
  · unfold goExt
    rw [h2]
    simp [List.reverse_append]

theorem trimSuffix_append (stem e : Str) : trimSuffix (stem ++ e) e = stem := by
  unfold trimSuffix goHasSuffix
  rw [if_pos (List.isSuffixOf_iff_suffix.mpr (List.suffix_append stem e))]
  have hlen : (stem ++ e).length - e.length = stem.length := by
    simp
  rw [hlen, List.take_left]

theorem splitOnChar_stem_tag_ext (stem t extRest : Str)
    (hdt : dotChar ∉ t) (hde : dotChar ∉ extRest) :
    splitOnChar dotChar (stem ++ dotChar :: (t ++ dotChar :: extRest)) =
      splitOnChar dotChar stem ++ [t, extRest] := by
  rw [splitOnChar_append, splitOnChar_append, splitOnChar_of_not_mem _ _ hdt,
    splitOnChar_of_not_mem _ _ hde]
  simp

theorem getD_parts (ss : List Str) (t e : Str) :
    (ss ++ [t, e]).getD ((ss ++ [t, e]).length - 2) [] = t := by
  have hlen : (ss ++ [t, e]).length - 2 = ss.length := by simp
  rw [hlen, List.getD_append_right ss [t, e] [] ss.length (le_refl _)]
  simp

theorem prefix_through_dot (stem v v' w : Str) (hw : dotChar ∉ w)
    (h : w <+: (stem ++ dotChar :: v)) : w <+: (stem ++ dotChar :: v') := by
  rcases le_or_lt w.length stem.length with hle | hlt
  · have hws : w <+: stem := by
      have heq := List.prefix_iff_eq_take.mp h
      rw [List.take_append_of_le_length hle] at heq
      exact List.prefix_iff_eq_take.mpr heq
    exact hws.trans (List.prefix_append stem _)
  · exfalso
    have heq := List.prefix_iff_eq_take.mp h
    obtain ⟨k, hk⟩ : ∃ k, w.length = stem.length + (k + 1) := by
      refine ⟨w.length - stem.length - 1, ?_⟩
      omega
    rw [hk, List.take_append, List.take_succ_cons] at heq
    apply hw
    rw [heq]
    simp

theorem goHasPrefix_through_dot (stem v v' w : Str) (hw : dotChar ∉ w) :
    goHasPrefix (stem ++ dotChar :: v) w = goHasPrefix (stem ++ dotChar :: v') w := by
  unfold goHasPrefix
  by_cases hp : w <+: (stem ++ dotChar :: v)
  · rw [ List.isPrefixOf_iff_prefix.mpr hp,
      List.isPrefixOf_iff_prefix.mpr (prefix_through_dot stem v v' w hw hp)]
  · have hp' : ¬ w <+: (stem ++ dotChar :: v') :=
      fun hc => hp (prefix_through_dot stem v' v w hw hc)
    rw [Bool.eq_false_iff.mpr (fun hc => hp ( List.isPrefixOf_iff_prefix.mp hc)),
      Bool.eq_false_iff.mpr (fun hc => hp' ( List.isPrefixOf_iff_prefix.mp hc))]

theorem generateTranslatedPath_eq (f t : Str) (stem extRest : Str)
    (hslashf : slashChar ∉ f) (hfne : f ≠ [])
    (hfeq : f = stem ++ dotChar :: extRest)
    (hgoext : goExt f = dotChar :: extRest) :
    generateTranslatedPath f t = stem ++ dotChar :: (t ++ dotChar :: extRest) := by
  simp only [generateTranslatedPath]
  rw [baseName_of_no_slash f hfne hslashf, dirName_of_no_slash f hslashf, joinPath_dot,
    hgoext, hfeq, trimSuffix_append stem (dotChar :: extRest)]

/-- C5 (amended): for a slash-free filename `f` that carries an extension
(`goExt f ≠ []`) and is classified untagged, and a tag `t` of length at
least two that is two characters long or contains a hyphen and contains
no dot and no slash, decoding the encoded filename recovers `t` and the
encoded filename is detected as tagged. -/
theorem c5_codec_inverse (f t : Str)
    (hslashf : slashChar ∉ f) (hext : goExt f ≠ [])
    (htmpl : isTemplateFile f = true)
    (hlen : 2 ≤ t.length) (hq : t.length = 2 ∨ dashChar ∈ t)
    (hdt : dotChar ∉ t) (hst : slashChar ∉ t) :
    extractLanguageFromFilename (generateTranslatedPath f t) (gs "md") = t ∧
    isTemplateFile (generateTranslatedPath f t) = false := by
  have hfne : f ≠ [] := by
    intro hnil
    apply hext
    rw [hnil]
    rfl
  obtain ⟨stem, extRest, hfeq, hgoext, hde, hse⟩ := goExt_spec f hext
  have henc := generateTranslatedPath_eq f t stem extRest hslashf hfne hfeq hgoext
  have hparts : splitOnChar dotChar (generateTranslatedPath f t) =
      splitOnChar dotChar stem ++ [t, extRest] := by
    rw [henc, splitOnChar_stem_tag_ext stem t extRest hdt hde]
  have hssne : splitOnChar dotChar stem ≠ [] := splitOnChar_ne_nil dotChar stem
  have h3 : 3 ≤ (splitOnChar dotChar stem ++ [t, extRest]).length := by
    have h1 : 1 ≤ (splitOnChar dotChar stem).length := List.length_pos.mpr hssne
    simp only [List.length_append, List.length_cons, List.length_nil]
    omega
  have hcond : 2 ≤ t.length ∧ (t.contains dashChar ∨ t.length = 2) := by
    refine ⟨hlen, ?_⟩
    rcases hq with h2 | hdash
    · exact Or.inr h2
    · exact Or.inl (List.elem_iff.mpr hdash)
  have hdecode : extractLanguageFromFilename (generateTranslatedPath f t) (gs "md") = t := by
    simp only [extractLanguageFromFilename]
    rw [hparts, if_pos h3, getD_parts, if_pos hcond]
  refine ⟨hdecode, ?_⟩
  -- slash-freeness of the encoded name
  have hsstem : slashChar ∉ stem := by
    intro hm
    apply hslashf
    rw [hfeq]
    exact List.mem_append.mpr (Or.inl hm)
  have hencslash : slashChar ∉ generateTranslatedPath f t := by
    rw [henc]
    intro hm
    rcases List.mem_append.mp hm with hm | hm
    · exact hsstem hm
    · rcases List.mem_cons.mp hm with hm | hm
      · exact absurd hm.symm (by decide)
      · rcases List.mem_append.mp hm with hm | hm
        · exact hst hm
        · rcases List.mem_cons.mp hm with hm | hm
          · exact absurd hm.symm (by decide)
          · exact hse hm
  have hencne : generateTranslatedPath f t ≠ [] := by
    rw [henc]
    simp
  have hbase2 := baseName_of_no_slash _ hencne hencslash
  -- the README/TODO test transfers from f to the encoded name
  have hRf : (goHasPrefix f (gs "README") || goHasPrefix f (gs "TODO")) = false := by
    by_contra hcon
    have htrue : (goHasPrefix f (gs "README") || goHasPrefix f (gs "TODO")) = true := by
      revert hcon
      cases goHasPrefix f (gs "README") || goHasPrefix f (gs "TODO") <;> simp
    have hbasef := baseName_of_no_slash f hfne hslashf
    simp only [isTemplateFile, hbasef, htrue, if_pos] at htmpl
    exact Bool.false_ne_true htmpl
  have hR : goHasPrefix (generateTranslatedPath f t) (gs "README") =
      goHasPrefix f (gs "README") := by
    rw [henc, hfeq]
    exact goHasPrefix_through_dot stem _ _ _ (by decide)
  have hT : goHasPrefix (generateTranslatedPath f t) (gs "TODO") =
      goHasPrefix f (gs "TODO") := by
    rw [henc, hfeq]
    exact goHasPrefix_through_dot stem _ _ _ (by decide)
  have hRT : (goHasPrefix (generateTranslatedPath f t) (gs "README") ||
      goHasPrefix (generateTranslatedPath f t) (gs "TODO")) = false := by
    rw [hR, hT]
    exact hRf
  simp only [isTemplateFile, hbase2, hRT, Bool.false_eq_true, if_neg, if_false]
  rw [hparts, if_pos h3, getD_parts, if_pos hcond]

/-- C5 counterexample: the claim as stated fails for the untagged,
extension-free filename "report" with the hyphenated tag "pt-BR": the
encoded name "report.pt-BR" decodes to "" and is still detected as a
template. -/
theorem c5_counterexample :
    isTemplateFile (gs "report") = true ∧
    ((gs "pt-BR").length = 2 ∨ dashChar ∈ gs "pt-BR") ∧ 2 ≤ (gs "pt-BR").length ∧
    ¬ (extractLanguageFromFilename (generateTranslatedPath (gs "report") (gs "pt-BR"))
        (gs "md") = gs "pt-BR" ∧
       isTemplateFile (generateTranslatedPath (gs "report") (gs "pt-BR")) = false) := by
  decide

/-- C5 witness: the amended theorem applied to "report.md" and "pt-BR". -/
theorem c5_codec_inverse_witness :
    extractLanguageFromFilename (generateTranslatedPath (gs "report.md") (gs "pt-BR"))
      (gs "md") = gs "pt-BR" ∧
    isTemplateFile (generateTranslatedPath (gs "report.md") (gs "pt-BR")) = false :=
  c5_codec_inverse (gs "report.md") (gs "pt-BR") (by decide) (by decide) (by decide)
    (by decide) (by decide) (by decide) (by decide)

theorem shouldSkipTranslation_iff (fs : FS) (o tr : Str) :
    shouldSkipTranslation fs o tr = true ↔
      ∃ tm om, fs.stat tr = some tm ∧ fs.stat o = some om ∧ om ≤ tm := by
  unfold shouldSkipTranslation
  cases htr : fs.stat tr with
  | none =>
    simp only [Bool.false_eq_true, false_iff]
    rintro ⟨tm, om, h1, h2, h3⟩
    exact Option.noConfusion h1
  | some tm =>
    cases ho : fs.stat o with
    | none =>
      simp only [Bool.false_eq_true, false_iff]
      rintro ⟨tm', om, h1, h2, h3⟩
      exact Option.noConfusion h2
    | some om =>
      simp only [Bool.or_eq_true, decide_eq_true_eq]
      constructor
      · rintro (hlt | heq)
        · exact ⟨tm, om, rfl, rfl, le_of_lt hlt⟩
        · exact ⟨tm, om, rfl, rfl, le_of_eq heq.symm⟩
      · rintro ⟨tm', om', h1, h2, h3⟩
        cases h1
        cases h2
        rcases lt_or_eq_of_le h3 with h | h
        · exact Or.inl h
        · exact Or.inr h.symm

/-- C8: for a readable source file, the file × language pair is skipped
with no provider call and no write exactly when the target computed by
the filename codec exists with a modification time at or after the
source's; otherwise the whole raw content is translated in one provider
call on the structured prompt and the result is written to the target. -/
theorem c8_skip_or_translate (fs : FS) (provider : Str → Except Str Str)
    (filePath targetLang content : Str)
    (hread : fs.read filePath = Except.ok content) :
    (shouldSkipTranslation fs filePath (generateTranslatedPath filePath targetLang) = true ↔
      ∃ tm om, fs.stat (generateTranslatedPath filePath targetLang) = some tm ∧
        fs.stat filePath = some om ∧ om ≤ tm) ∧
    (shouldSkipTranslation fs filePath (generateTranslatedPath filePath targetLang) = true →
      translateSingleTemplate fs provider filePath targetLang = (Except.ok (), [])) ∧
    (shouldSkipTranslation fs filePath (generateTranslatedPath filePath targetLang) = false →
      ∀ translated, provider (directPrompt content targetLang) = Except.ok translated →
        translateSingleTemplate fs provider filePath targetLang =
          (Except.ok (),
           [Event.providerCalled (directPrompt content targetLang),
            Event.fileWritten (generateTranslatedPath filePath targetLang)
              (cleanDirectTranslationResponse translated content)])) := by
  refine ⟨shouldSkipTranslation_iff fs filePath _, ?_, ?_⟩
  · intro hskip
    unfold translateSingleTemplate
    rw [hread]
    simp only [hskip, if_pos]
  · intro hskip translated hprov
    unfold translateSingleTemplate
    rw [hread]
    simp only [hskip, Bool.false_eq_true, if_false, TranslateTemplateDirect, hprov]

/-- C9: when the source file is unreadable, `translateSingleTemplate`
returns the read error before consulting the up-to-dateness check, with
no provider call and no write — regardless of the state of the target. -/
theorem c9_read_error_first (fs : FS) (provider : Str → Except Str Str)
    (filePath targetLang e : Str)
    (hread : fs.read filePath = Except.error e) :
    translateSingleTemplate fs provider filePath targetLang =
      (Except.error (wrapErr (gs "unable to read file: " ++ filePath) e), []) := by
  unfold translateSingleTemplate
  rw [hread]

/-- C8 witness: the up-to-date pair is skipped with an empty trace, and
the missing-target pair is translated in one provider call and written. -/
theorem c8_skip_or_translate_witness :
    translateSingleTemplate fsSkipFixture providerOkFixture (gs "patch.md") (gs "pt-BR") =
      (Except.ok (), []) ∧
    translateSingleTemplate fsFreshFixture providerOkFixture (gs "patch.md") (gs "pt-BR") =
      (Except.ok (),
       [Event.providerCalled (directPrompt (gs "body") (gs "pt-BR")),
        Event.fileWritten (generateTranslatedPath (gs "patch.md") (gs "pt-BR"))
          (cleanDirectTranslationResponse (gs "resultado") (gs "body"))]) :=
  ⟨(c8_skip_or_translate fsSkipFixture providerOkFixture (gs "patch.md") (gs "pt-BR")
      (gs "body") rfl).2.1 (by decide),
   (c8_skip_or_translate fsFreshFixture providerOkFixture (gs "patch.md") (gs "pt-BR")
      (gs "body") rfl).2.2 (by decide) (gs "resultado") rfl⟩

/-- C9 witness: an unreadable source yields the read error and an empty
trace even though an up-to-date target exists. -/
theorem c9_read_error_first_witness :
    translateSingleTemplate fsUnreadableFixture providerOkFixture (gs "patch.md") (gs "pt-BR") =
      (Except.error (wrapErr (gs "unable to read file: " ++ gs "patch.md")
        (gs "permission denied")), []) :=
  c9_read_error_first fsUnreadableFixture providerOkFixture (gs "patch.md") (gs "pt-BR")
    (gs "permission denied") rfl

theorem dropWhile_head?_not (p : Char → Bool) (l : Str) (c : Char)
    (h : (l.dropWhile p).head? = some c) : p c = false := by
  induction l with
  | nil => simp [List.dropWhile] at h
  | cons x xs ih =>
    rw [List.dropWhile_cons] at h
    by_cases hx : p x
    · rw [if_pos hx] at h
      exact ih h
    · rw [if_neg hx] at h
      simp only [List.head?_cons, Option.some_inj] at h
      subst h
      exact Bool.eq_false_iff.mpr hx

theorem trimSpace_head (s : Str) (c : Char) (h : (trimSpace s).head? = some c) :
    isSpaceChar c = false := by
  unfold trimSpace at h
  have hsuffix : ((s.dropWhile isSpaceChar).reverse.dropWhile isSpaceChar) <:+
      (s.dropWhile isSpaceChar).reverse := List.dropWhile_suffix _
  have hpre : ((s.dropWhile isSpaceChar).reverse.dropWhile isSpaceChar).reverse <+:
      s.dropWhile isSpaceChar := by
    have h2 := List.reverse_prefix.mpr hsuffix
    rwa [List.reverse_reverse] at h2
  obtain ⟨t, ht⟩ := hpre
  cases hT : ((s.dropWhile isSpaceChar).reverse.dropWhile isSpaceChar).reverse with
  | nil =>
    rw [hT] at h
    exact Option.noConfusion h
  | cons a T' =>
    rw [hT] at h ht
    simp only [List.head?_cons, Option.some_inj] at h
    have hhead : (s.dropWhile isSpaceChar).head? = some a := by
      rw [← ht]
      rfl
    rw [← h]
    exact dropWhile_head?_not isSpaceChar s a hhead

theorem trimSpace_getLast (s : Str) (c : Char) (h : (trimSpace s).getLast? = some c) :
    isSpaceChar c = false := by
  unfold trimSpace at h
  rw [List.getLast?_reverse] at h
  exact dropWhile_head?_not isSpaceChar _ c h

theorem isTrimmed_trimSpace (s : Str) : isTrimmed (trimSpace s) = true := by
  unfold isTrimmed
  rw [Bool.and_eq_true]
  constructor
  · cases hh : (trimSpace s).head? with
    | none => rfl
    | some c => simp [trimSpace_head s c hh]
  · cases hh : (trimSpace s).getLast? with
    | none => rfl
    | some c => simp [trimSpace_getLast s c hh]

theorem isTrimmed_cleanDirect (response original : Str) :
    isTrimmed (cleanDirectTranslationResponse response original) = true := by
  unfold cleanDirectTranslationResponse
  exact isTrimmed_trimSpace _

theorem openAIMakeRequest_ok_trimmed (resp : HttpResponse) (s : Str)
    (h : openAIMakeRequest resp = Except.ok s) : isTrimmed s = true := by
  unfold openAIMakeRequest at h
  split at h
  · exact Except.noConfusion h
  · split at h
    · exact Except.noConfusion h
    · split at h
      · cases h
        exact isTrimmed_trimSpace _
      · exact Except.noConfusion h

theorem anthropicMakeRequest_ok_trimmed (resp : HttpResponse) (s : Str)
    (h : anthropicMakeRequest resp = Except.ok s) : isTrimmed s = true := by
  unfold anthropicMakeRequest at h
  split at h
  · exact Except.noConfusion h
  · split at h
    · exact Except.noConfusion h
    · split at h
      · cases h
        exact isTrimmed_trimSpace _
      · exact Except.noConfusion h

theorem ollamaMakeRequest_ok_trimmed (resp : HttpResponse) (s : Str)
    (h : ollamaMakeRequest resp = Except.ok s) : isTrimmed s = true := by
  unfold ollamaMakeRequest at h
  split at h
  · exact Except.noConfusion h
  · split at h
    · exact Except.noConfusion h
    · split at h
      · exact Except.noConfusion h
      · exact Except.noConfusion h
      · cases h
        exact isTrimmed_trimSpace _
      · exact Except.noConfusion h

theorem TranslateTemplateDirect_ok (content sl tl : Str)
    (provider : Str → Except Str Str) (s : Str)
    (h : TranslateTemplateDirect content sl tl provider = Except.ok s) :
    ∃ raw, s = cleanDirectTranslationResponse raw content := by
  unfold TranslateTemplateDirect at h
  split at h
  · exact Except.noConfusion h
  · cases h
    exact ⟨_, rfl⟩

/-- C10: every surfaced translation result is whitespace-trimmed: the
cleaned direct-translation response is trimmed, every provider variant
returns a trimmed extraction, and any content written by
`translateSingleTemplate` is trimmed — so a trailing newline of the
source is never preserved in the written translation. -/
theorem c10_trimmed_results (response original : Str) (resp : HttpResponse) :
    isTrimmed (cleanDirectTranslationResponse response original) = true ∧
    (∀ s, openAIMakeRequest resp = Except.ok s → isTrimmed s = true) ∧
    (∀ s, anthropicMakeRequest resp = Except.ok s → isTrimmed s = true) ∧
    (∀ s, ollamaMakeRequest resp = Except.ok s → isTrimmed s = true) ∧
    (∀ (fs : FS) (provider : Str → Except Str Str) (filePath targetLang p c : Str),
      Event.fileWritten p c ∈ (translateSingleTemplate fs provider filePath targetLang).2 →
      isTrimmed c = true) := by
  refine ⟨isTrimmed_cleanDirect response original,
    fun s h => openAIMakeRequest_ok_trimmed resp s h,
    fun s h => anthropicMakeRequest_ok_trimmed resp s h,
    fun s h => ollamaMakeRequest_ok_trimmed resp s h, ?_⟩
  intro fs provider filePath targetLang p c hmem
  unfold translateSingleTemplate at hmem
  split at hmem
  · simp at hmem
  · rename_i content heqread
    split at hmem
    · simp at hmem
    · split at hmem
      · simp at hmem
      · rename_i translatedContent hok
        simp only [List.mem_cons, List.mem_singleton, List.not_mem_nil] at hmem
        rcases hmem with h | h | h
        · exact Event.noConfusion h
        · have hc : c = translatedContent := by
            cases h
            rfl
          obtain ⟨raw, hraw⟩ := TranslateTemplateDirect_ok content (gs "en") targetLang
            provider translatedContent hok
          rw [hc, hraw]
          exact isTrimmed_cleanDirect raw content
        · exact absurd h (by simp)

/-- C10 witness: the cleaner trims a concrete boilerplate response, and
the OpenAI variant returns the concrete content trimmed of its trailing
newline. -/
theorem c10_trimmed_results_witness :
    isTrimmed (cleanDirectTranslationResponse (gs "Translation: hola ") (gs "doc")) = true ∧
    isTrimmed (gs "hola") = true :=
  ⟨(c10_trimmed_results (gs "Translation: hola ") (gs "doc") openAIRespFixture).1,
   (c10_trimmed_results (gs "Translation: hola ") (gs "doc") openAIRespFixture).2.1
     (gs "hola") (by rfl)⟩

/-- C4 counterexample: two responses with the same body but different
non-success statuses (401 and 500) produce identical errors, so the
error cannot carry the HTTP status; its message embeds only the body. -/
theorem c4_counterexample :
    openAIMakeRequest { status := 401, body := gs "unauthorized", json := none } =
      openAIMakeRequest { status := 500, body := gs "unauthorized", json := none } ∧
    openAIMakeRequest { status := 401, body := gs "unauthorized", json := none } =
      Except.error (ProviderError.apiRequestFailed (gs "unauthorized")) ∧
    goContains (providerErrorMessage (ProviderError.apiRequestFailed (gs "unauthorized")))
      (gs "401") = false := by
  refine ⟨rfl, rfl, by decide⟩

/-- C4 (amended): on any non-success status every provider variant fails
with an error carrying the raw response body (but not the status code);
on a success status with a shape mismatch, OpenAI and Anthropic fail with
the distinct "unexpected response format" error, and Ollama does so when
the `response` field is absent or null (a present non-string field hits
the unchecked type assertion instead); and a provider failure in the
template path yields no write event. -/
theorem c4_provider_errors (resp : HttpResponse) :
    (resp.status ≠ 200 →
      openAIMakeRequest resp = Except.error (ProviderError.apiRequestFailed resp.body) ∧
      anthropicMakeRequest resp = Except.error (ProviderError.apiRequestFailed resp.body) ∧
      ollamaMakeRequest resp = Except.error (ProviderError.apiRequestFailed resp.body)) ∧
    (resp.status = 200 → ∀ fields, resp.json = some fields →
      (extractOpenAIContent fields = none →
        openAIMakeRequest resp = Except.error ProviderError.unexpectedResponseFormat) ∧
      (extractAnthropicText fields = none →
        anthropicMakeRequest resp = Except.error ProviderError.unexpectedResponseFormat) ∧
      (jsonLookup fields (gs "response") = none ∨
          jsonLookup fields (gs "response") = some Json.null →
        ollamaMakeRequest resp = Except.error ProviderError.unexpectedResponseFormat)) ∧
    (∀ (fs : FS) (provider : Str → Except Str Str) (filePath targetLang content e : Str),
      fs.read filePath = Except.ok content →
      shouldSkipTranslation fs filePath (generateTranslatedPath filePath targetLang) = false →
      provider (directPrompt content targetLang) = Except.error e →
      translateSingleTemplate fs provider filePath targetLang =
        (Except.error (wrapErr (gs "translation failed for file: " ++ filePath)
          (wrapErr (gs "failed to translate template using direct approach") e)),
         [Event.providerCalled (directPrompt content targetLang)])) := by
  refine ⟨?_, ?_, ?_⟩
  · intro hst
    refine ⟨?_, ?_, ?_⟩
    · unfold openAIMakeRequest
      rw [if_pos hst]
    · unfold anthropicMakeRequest
      rw [if_pos hst]
    · unfold ollamaMakeRequest
      rw [if_pos hst]
  · intro hst fields hjson
    refine ⟨?_, ?_, ?_⟩
    · intro hext
      simp [openAIMakeRequest, hst, hjson, hext]
    · intro hext
      simp [anthropicMakeRequest, hst, hjson, hext]
    · rintro (hlk | hlk) <;> simp [ollamaMakeRequest, hst, hjson, hlk]
  · intro fs provider filePath targetLang content e hread hskip hprov
    unfold translateSingleTemplate
    rw [hread]
    simp only [hskip, Bool.false_eq_true, if_false, TranslateTemplateDirect, hprov]

/-- C4 witness: the amended theorem applied to a 401 response, a
success-status response of the wrong shape, and a failing provider in the
template path (no write event). -/
theorem c4_provider_errors_witness :
    openAIMakeRequest { status := 401, body := gs "unauthorized", json := none } =
      Except.error (ProviderError.apiRequestFailed (gs "unauthorized")) ∧
    openAIMakeRequest { status := 200, body := gs "bad", json := some [] } =
      Except.error ProviderError.unexpectedResponseFormat ∧
    ollamaMakeRequest { status := 200, body := gs "bad", json := some [] } =
      Except.error ProviderError.unexpectedResponseFormat ∧
    translateSingleTemplate fsFreshFixture providerFailFixture (gs "patch.md") (gs "pt-BR") =
      (Except.error (wrapErr (gs "translation failed for file: " ++ gs "patch.md")
        (wrapErr (gs "failed to translate template using direct approach")
          (gs "API request failed: unauthorized"))),
       [Event.providerCalled (directPrompt (gs "body") (gs "pt-BR"))]) :=
  ⟨(c4_provider_errors { status := 401, body := gs "unauthorized", json := none }).1
     (by decide) |>.1,
   ((c4_provider_errors { status := 200, body := gs "bad", json := some [] }).2.1
     rfl [] rfl).1 rfl,
   ((c4_provider_errors { status := 200, body := gs "bad", json := some [] }).2.1
     rfl [] rfl).2.2 (Or.inl rfl),
   (c4_provider_errors { status := 200, body := gs "bad", json := some [] }).2.2
     fsFreshFixture providerFailFixture (gs "patch.md") (gs "pt-BR") (gs "body")
     (gs "API request failed: unauthorized") rfl (by decide) rfl⟩

/-- C7: when the tracker already holds this-or-a-later modification time
for the document's path (`isNewer` false), `renderTranslatedDocument`
returns immediately with no side effects — unchanged tracker, empty
trace; otherwise the (path, modification time) pair is recorded before
any work: the resulting tracker is the updated one in every outcome,
including every failure. -/
theorem c7_staleness_frame (ops : RenderOps) (st : List (Str × Nat)) (doc : Document)
    (outputDir targetLang format : Str) :
    (isNewer st doc.fullPath doc.modifiedAt = false →
      renderTranslatedDocument ops st doc outputDir targetLang format =
        (Except.ok (), st, [])) ∧
    (isNewer st doc.fullPath doc.modifiedAt = true →
      (renderTranslatedDocument ops st doc outputDir targetLang format).2.1 =
        recordModified st doc.fullPath doc.modifiedAt) := by
  constructor
  · intro h
    unfold renderTranslatedDocument
    rw [h]
    simp only [Bool.not_false, if_true]
  · intro h
    unfold renderTranslatedDocument
    rw [h]
    simp only [Bool.not_true, Bool.false_eq_true, if_false]
    split
    · rfl
    · split
      · rfl
      · split
        · rfl
        · split
          · rfl
          · split
            · rfl
            · rfl

/-- C7 witness: with the pair already recorded at the same time the run
is a no-op; with an empty tracker the pair is recorded up front. -/
theorem c7_staleness_frame_witness :
    renderTranslatedDocument renderOpsFixture [(gs "policies/access.md", 10)] docFixture
      (gs "output") (gs "es") (gs "pdf") =
      (Except.ok (), [(gs "policies/access.md", 10)], []) ∧
    (renderTranslatedDocument renderOpsFixture [] docFixture
      (gs "output") (gs "es") (gs "pdf")).2.1 =
      recordModified [] (gs "policies/access.md") 10 :=
  ⟨(c7_staleness_frame renderOpsFixture [(gs "policies/access.md", 10)] docFixture
      (gs "output") (gs "es") (gs "pdf")).1 (by decide),
   (c7_staleness_frame renderOpsFixture [] docFixture
      (gs "output") (gs "es") (gs "pdf")).2 (by decide)⟩

theorem getLastD_append_single (xs : List Str) (a : Str) :
    (xs ++ [a]).getLastD [] = a := by
  induction xs with
  | nil => rfl
  | cons x xs ih =>
    cases xs with
    | nil => rfl
    | cons y ys => exact ih

theorem baseName_joinPath (dir name : Str) (hn : slashChar ∉ name) (hne : name ≠ []) :
    baseName (joinPath dir name) = name := by
  unfold joinPath
  by_cases h1 : dir.isEmpty
  · rw [if_pos h1]
    exact baseName_of_no_slash name hne hn
  · rw [if_neg h1]
    by_cases h2 : dir = gs "."
    · rw [if_pos h2]
      exact baseName_of_no_slash name hne hn
    · rw [if_neg h2]
      unfold baseName
      rw [if_neg (by simp [List.isEmpty_iff])]
      rw [splitOnChar_append slashChar dir name, splitOnChar_of_not_mem _ _ hn]
      exact getLastD_append_single _ name

theorem goHasSuffix_append (x suf : Str) : goHasSuffix (x ++ suf) suf = true :=
  List.isSuffixOf_iff_suffix.mpr (List.suffix_append x suf)

theorem goHasSuffix_joinPath (dir x suf : Str) :
    goHasSuffix (joinPath dir (x ++ suf)) suf = true := by
  unfold joinPath
  by_cases h1 : dir.isEmpty
  · rw [if_pos h1]
    exact goHasSuffix_append x suf
  · rw [if_neg h1]
    by_cases h2 : dir = gs "."
    · rw [if_pos h2]
      exact goHasSuffix_append x suf
    · rw [if_neg h2]
      have : dir ++ slashChar :: (x ++ suf) = (dir ++ slashChar :: x) ++ suf := by simp
      rw [this]
      exact goHasSuffix_append _ suf

theorem suffix_unique {s l1 l2 : Str} (h1 : l1 <:+ s) (h2 : l2 <:+ s)
    (hl : l1.length = l2.length) : l1 = l2 := by
  obtain ⟨t1, ht1⟩ := h1
  obtain ⟨t2, ht2⟩ := h2
  have heq : t1 ++ l1 = t2 ++ l2 := ht1.trans ht2.symm
  have hlen : t1.length = t2.length := by
    have := congrArg List.length heq
    simp only [List.length_append] at this
    omega
  exact (List.append_inj heq hlen).2

theorem goHasSuffix_html_not_pdf (s : Str) :
    goHasSuffix (s ++ gs ".html") (gs ".pdf") = false := by
  apply Bool.eq_false_iff.mpr
  intro hc
  have h1 : gs ".pdf" <:+ s ++ gs ".html" := List.isSuffixOf_iff_suffix.mp hc
  have hsplit : s ++ gs ".html" = (s ++ gs ".h") ++ gs "tml" := by
    have : gs ".html" = gs ".h" ++ gs "tml" := by decide
    rw [this, List.append_assoc]
  have h2 : gs "tml" <:+ s ++ gs ".html" := by
    rw [hsplit]
    exact List.suffix_append _ _
  have h3 : gs ".pdf" <:+ s ++ gs ".html" → False := by
    intro hp
    have h4 : (gs ".pdf").drop 1 <:+ s ++ gs ".html" := by
      obtain ⟨t, ht⟩ := hp
      refine ⟨t ++ (gs ".pdf").take 1, ?_⟩
      rw [List.append_assoc, ← ht]
      simp
      decide
    have := suffix_unique h4 h2 (by decide)
    exact absurd this (by decide)
  exact h3 h1

theorem goHasSuffix_joinPath_html_not_pdf (dir x : Str) :
    goHasSuffix (joinPath dir (x ++ gs ".html")) (gs ".pdf") = false := by
  unfold joinPath
  by_cases h1 : dir.isEmpty
  · rw [if_pos h1]
    exact goHasSuffix_html_not_pdf x
  · rw [if_neg h1]
    by_cases h2 : dir = gs "."
    · rw [if_pos h2]
      exact goHasSuffix_html_not_pdf x
    · rw [if_neg h2]
      have : dir ++ slashChar :: (x ++ gs ".html") = (dir ++ slashChar :: x) ++ gs ".html" := by
        simp
      rw [this]
      exact goHasSuffix_html_not_pdf _

theorem generateTranslatedPDF_spec (ops : RenderOps) (mdPath outputDir ofn tl : Str)
    (hofn : slashChar ∉ ofn) (htl : slashChar ∉ tl) :
    generateTranslatedPDF ops mdPath outputDir ofn tl =
      (ops.pandocRun (ofn ++ gs "_" ++ tl), [Event.pandocPdf (ofn ++ gs "_" ++ tl)]) := by
  unfold generateTranslatedPDF runPandoc
  have hget : (pandocArgsPDF (joinPath outputDir (ofn ++ gs "_" ++ tl ++ gs ".pdf")) mdPath).getD
      ((pandocArgsPDF (joinPath outputDir (ofn ++ gs "_" ++ tl ++ gs ".pdf")) mdPath).length - 2)
      [] = joinPath outputDir (ofn ++ gs "_" ++ tl ++ gs ".pdf") := rfl
  rw [hget]
  rw [if_pos ⟨by simp [pandocArgsPDF], goHasSuffix_joinPath outputDir (ofn ++ gs "_" ++ tl)
    (gs ".pdf")⟩]
  have hnoslash : slashChar ∉ ofn ++ gs "_" ++ tl ++ gs ".pdf" := by
    intro hm
    rcases List.mem_append.mp hm with hm | hm
    · rcases List.mem_append.mp hm with hm | hm
      · rcases List.mem_append.mp hm with hm | hm
        · exact hofn hm
        · exact absurd hm (by decide)
      · exact htl hm
    · exact absurd hm (by decide)
  have hne : ofn ++ gs "_" ++ tl ++ gs ".pdf" ≠ [] := by
    intro h
    have := congrArg List.length h
    simp [gs] at this
  rw [baseName_joinPath outputDir _ hnoslash hne]
  simp only [trimSuffix_append]

theorem generateTranslatedHTML_spec (ops : RenderOps) (mdPath outputDir ofn tl : Str) :
    generateTranslatedHTML ops mdPath outputDir ofn tl = (Except.ok (), []) := by
  unfold generateTranslatedHTML runPandoc
  have hget : (pandocArgsHTML (joinPath outputDir (ofn ++ gs "_" ++ tl ++ gs ".html")) mdPath).getD
      ((pandocArgsHTML (joinPath outputDir (ofn ++ gs "_" ++ tl ++ gs ".html")) mdPath).length - 2)
      [] = joinPath outputDir (ofn ++ gs "_" ++ tl ++ gs ".html") := rfl
  rw [hget]
  rw [if_neg ?_, if_pos ⟨by simp [pandocArgsHTML], goHasSuffix_joinPath outputDir
    (ofn ++ gs "_" ++ tl) (gs ".html")⟩]
  rintro ⟨-, hsuf⟩
  rw [goHasSuffix_joinPath_html_not_pdf outputDir (ofn ++ gs "_" ++ tl)] at hsuf
  exact Bool.false_ne_true hsuf

theorem translateSectionsLoop_events (translate : Str → Except Str Str) (secs : List Str) :
    ∀ ev ∈ (translateSectionsLoop translate secs).2, ∃ tx, ev = Event.providerCalled tx ∧
      tx ∈ secs ∧ shouldTranslate tx = true := by
  induction secs with
  | nil => simp [translateSectionsLoop]
  | cons s rest ih =>
    intro ev hev
    simp only [translateSectionsLoop] at hev
    by_cases hs : shouldTranslate s
    · rw [if_pos hs] at hev
      cases htr : translate s with
      | error e =>
        rw [htr] at hev
        simp only [List.mem_singleton] at hev
        exact ⟨s, hev, List.mem_cons_self s rest, hs⟩
      | ok t =>
        rw [htr] at hev
        cases hrec : translateSectionsLoop translate rest with
        | mk res evs =>
          rw [hrec] at hev
          cases res with
          | error e =>
            simp only [List.mem_cons] at hev
            rcases hev with hev | hev
            · exact ⟨s, hev, List.mem_cons_self s rest, hs⟩
            · obtain ⟨tx, h1, h2, h3⟩ := ih ev (by rw [hrec]; exact hev)
              exact ⟨tx, h1, List.mem_cons_of_mem s h2, h3⟩
          | ok ts =>
            simp only [List.mem_cons] at hev
            rcases hev with hev | hev
            · exact ⟨s, hev, List.mem_cons_self s rest, hs⟩
            · obtain ⟨tx, h1, h2, h3⟩ := ih ev (by rw [hrec]; exact hev)
              exact ⟨tx, h1, List.mem_cons_of_mem s h2, h3⟩
    · rw [if_neg hs] at hev
      cases hrec : translateSectionsLoop translate rest with
      | mk res evs =>
        rw [hrec] at hev
        cases res with
        | error e =>
          obtain ⟨tx, h1, h2, h3⟩ := ih ev (by rw [hrec]; exact hev)
          exact ⟨tx, h1, List.mem_cons_of_mem s h2, h3⟩
        | ok ts =>
          obtain ⟨tx, h1, h2, h3⟩ := ih ev (by rw [hrec]; exact hev)
          exact ⟨tx, h1, List.mem_cons_of_mem s h2, h3⟩

theorem TranslateDocument_events (translate : Str → Except Str Str) (content : Str) :
    ∀ ev ∈ (TranslateDocument translate content).2, ∃ tx, ev = Event.providerCalled tx ∧
      tx ∈ extractSections content ∧ shouldTranslate tx = true := by
  intro ev hev
  unfold TranslateDocument at hev
  cases hrec : translateSectionsLoop translate (extractSections content) with
  | mk res evs =>
    rw [hrec] at hev
    cases res with
    | error e =>
      exact translateSectionsLoop_events translate (extractSections content) ev
        (by rw [hrec]; exact hev)
    | ok ts =>
      exact translateSectionsLoop_events translate (extractSections content) ev
        (by rw [hrec]; exact hev)

theorem renderTranslatedDocument_success (ops : RenderOps) (st : List (Str × Nat))
    (doc : Document) (outputDir targetLang format content translatedContent : Str)
    (evs revs : List Event)
    (hnew : isNewer st doc.fullPath doc.modifiedAt = true)
    (hpre : ops.preprocess (joinPath outputDir (doc.outputFilename ++ gs ".md")) =
      Except.ok ())
    (hread : ops.readFile (joinPath outputDir (doc.outputFilename ++ gs ".md")) =
      Except.ok content)
    (htrans : TranslateDocument ops.translate content = (Except.ok translatedContent, evs))
    (hwrite : ops.writeFile
      (joinPath outputDir (doc.outputFilename ++ gs "_" ++ targetLang ++ gs ".md"))
      translatedContent = Except.ok ())
    (hrend : (if format = gs "pdf" then
                generateTranslatedPDF ops
                  (joinPath outputDir (doc.outputFilename ++ gs "_" ++ targetLang ++ gs ".md"))
                  outputDir doc.outputFilename targetLang
              else if format = gs "html" then
                generateTranslatedHTML ops
                  (joinPath outputDir (doc.outputFilename ++ gs "_" ++ targetLang ++ gs ".md"))
                  outputDir doc.outputFilename targetLang
              else (Except.ok (), [])) = (Except.ok (), revs)) :
    renderTranslatedDocument ops st doc outputDir targetLang format =
      (Except.ok (), recordModified st doc.fullPath doc.modifiedAt,
       (Event.preprocessed (joinPath outputDir (doc.outputFilename ++ gs ".md")) :: evs ++
        [Event.fileWritten
          (joinPath outputDir (doc.outputFilename ++ gs "_" ++ targetLang ++ gs ".md"))
          translatedContent]) ++ revs ++
       [Event.fileRemoved (joinPath outputDir (doc.outputFilename ++ gs ".md")),
        Event.fileRemoved
          (joinPath outputDir (doc.outputFilename ++ gs "_" ++ targetLang ++ gs ".md"))]) := by
  unfold renderTranslatedDocument
  rw [hnew]
  simp only [Bool.not_true, Bool.false_eq_true, if_false, hpre, hread, htrans, hwrite, hrend]

/-- C6 (amended): under a passing staleness check and succeeding
collaborators, the pdf run invokes the external renderer on the stem
`<outputFilename>_<language>` — producing `<stem>_<language>.pdf` —
strictly before the two intermediate markdown files are deleted; the html
run deletes the intermediates and reports success without invoking any
renderer, because the html branch of `runPandoc` is a stub. -/
theorem c6_render_invocation (ops : RenderOps) (st : List (Str × Nat)) (doc : Document)
    (outputDir targetLang content translatedContent : Str) (evs : List Event)
    (hofn : slashChar ∉ doc.outputFilename) (htl : slashChar ∉ targetLang)
    (hnew : isNewer st doc.fullPath doc.modifiedAt = true)
    (hpre : ops.preprocess (joinPath outputDir (doc.outputFilename ++ gs ".md")) =
      Except.ok ())
    (hread : ops.readFile (joinPath outputDir (doc.outputFilename ++ gs ".md")) =
      Except.ok content)
    (htrans : TranslateDocument ops.translate content = (Except.ok translatedContent, evs))
    (hwrite : ops.writeFile
      (joinPath outputDir (doc.outputFilename ++ gs "_" ++ targetLang ++ gs ".md"))
      translatedContent = Except.ok ())
    (hpandoc : ops.pandocRun (doc.outputFilename ++ gs "_" ++ targetLang) = Except.ok ()) :
    renderTranslatedDocument ops st doc outputDir targetLang (gs "pdf") =
      (Except.ok (), recordModified st doc.fullPath doc.modifiedAt,
       (Event.preprocessed (joinPath outputDir (doc.outputFilename ++ gs ".md")) :: evs ++
        [Event.fileWritten
          (joinPath outputDir (doc.outputFilename ++ gs "_" ++ targetLang ++ gs ".md"))
          translatedContent]) ++
       [Event.pandocPdf (doc.outputFilename ++ gs "_" ++ targetLang)] ++
       [Event.fileRemoved (joinPath outputDir (doc.outputFilename ++ gs ".md")),
        Event.fileRemoved
          (joinPath outputDir (doc.outputFilename ++ gs "_" ++ targetLang ++ gs ".md"))]) ∧
    renderTranslatedDocument ops st doc outputDir targetLang (gs "html") =
      (Except.ok (), recordModified st doc.fullPath doc.modifiedAt,
       (Event.preprocessed (joinPath outputDir (doc.outputFilename ++ gs ".md")) :: evs ++
        [Event.fileWritten
          (joinPath outputDir (doc.outputFilename ++ gs "_" ++ targetLang ++ gs ".md"))
          translatedContent]) ++ [] ++
       [Event.fileRemoved (joinPath outputDir (doc.outputFilename ++ gs ".md")),
        Event.fileRemoved
          (joinPath outputDir (doc.outputFilename ++ gs "_" ++ targetLang ++ gs ".md"))]) ∧
    (∀ ev ∈ evs, ∃ tx, ev = Event.providerCalled tx) := by
  refine ⟨?_, ?_, ?_⟩
  · apply renderTranslatedDocument_success ops st doc outputDir targetLang (gs "pdf")
      content translatedContent evs _ hnew hpre hread htrans hwrite
    rw [if_pos rfl, generateTranslatedPDF_spec ops _ outputDir doc.outputFilename targetLang
      hofn htl, hpandoc]
  · apply renderTranslatedDocument_success ops st doc outputDir targetLang (gs "html")
      content translatedContent evs _ hnew hpre hread htrans hwrite
    rw [if_neg (by decide), if_pos rfl, generateTranslatedHTML_spec ops _ outputDir
      doc.outputFilename targetLang]
  · intro ev hev
    obtain ⟨tx, h1, h2, h3⟩ := TranslateDocument_events ops.translate content ev
      (by rw [htrans]; exact hev)
    exact ⟨tx, h1⟩

/-- C6 counterexample: a fully successful html-format run deletes both
intermediate files and reports success, yet never invokes any renderer —
no html artifact is produced. -/
theorem c6_counterexample :
    isOkUnit (renderTranslatedDocument renderOpsFixture [] docFixture (gs "output") (gs "es")
      (gs "html")).1 = true ∧
    hasPandocEvent (renderTranslatedDocument renderOpsFixture [] docFixture (gs "output")
      (gs "es") (gs "html")).2.2 = false ∧
    Event.fileRemoved (joinPath (gs "output") (gs "access" ++ gs ".md")) ∈
      (renderTranslatedDocument renderOpsFixture [] docFixture (gs "output") (gs "es")
        (gs "html")).2.2 := by
  decide

/-- C6 witness: the amended theorem applied to the concrete fixtures. -/
theorem c6_render_invocation_witness :
    renderTranslatedDocument renderOpsFixture [] docFixture (gs "output") (gs "es")
      (gs "pdf") =
      (Except.ok (), recordModified [] (gs "policies/access.md") 10,
       (Event.preprocessed (joinPath (gs "output") (gs "access" ++ gs ".md")) ::
          [Event.providerCalled (gs "# Purpose\na. text.")] ++
        [Event.fileWritten
          (joinPath (gs "output") (gs "access" ++ gs "_" ++ gs "es" ++ gs ".md"))
          (gs "# Purpose\na. text.")]) ++
       [Event.pandocPdf (gs "access" ++ gs "_" ++ gs "es")] ++
       [Event.fileRemoved (joinPath (gs "output") (gs "access" ++ gs ".md")),
        Event.fileRemoved
          (joinPath (gs "output") (gs "access" ++ gs "_" ++ gs "es" ++ gs ".md"))]) :=
  (c6_render_invocation renderOpsFixture [] docFixture (gs "output") (gs "es")
    (gs "# Purpose\na. text.") (gs "# Purpose\na. text.")
    [Event.providerCalled (gs "# Purpose\na. text.")]
    (by decide) (by decide) (by decide) rfl rfl (by rfl) rfl rfl).1

theorem processDocs_ok (process : Document → Except Str Unit) (msg : Str)
    (ds : List Document) (h : ∀ d ∈ ds, process d = Except.ok ()) :
    processDocs process msg ds = (none, ds) := by
  induction ds with
  | nil => rfl
  | cons d ds ih =>
    simp only [processDocs, h d (List.mem_cons_self d ds)]
    rw [ih (fun d' hd' => h d' (List.mem_cons_of_mem d hd'))]

theorem processDocs_err (process : Document → Except Str Unit) (msg e : Str)
    (d : Document) (ds1 ds2 : List Document)
    (h1 : ∀ d' ∈ ds1, process d' = Except.ok ()) (h2 : process d = Except.error e) :
    processDocs process msg (ds1 ++ d :: ds2) =
      (some (wrapErr (msg ++ d.name) e), ds1 ++ [d]) := by
  induction ds1 with
  | nil => simp [processDocs, h2]
  | cons d' ds1 ih =>
    simp only [List.cons_append, processDocs, h1 d' (List.mem_cons_self d' ds1),
      List.append_eq]
    rw [ih (fun x hx => h1 x (List.mem_cons_of_mem d' hx))]

theorem translateLangsLoop_ok (translateOne : Str → Str → Except Str Unit) (f : Str)
    (ls : List Str) (h : ∀ l ∈ ls, translateOne f l = Except.ok ()) :
    translateLangsLoop translateOne f ls = (Except.ok (), ls.map (fun l => (f, l))) := by
  induction ls with
  | nil => rfl
  | cons l ls ih =>
    simp only [translateLangsLoop, h l (List.mem_cons_self l ls)]
    rw [ih (fun l' hl' => h l' (List.mem_cons_of_mem l hl'))]
    rfl

theorem translateLangsLoop_err (translateOne : Str → Str → Except Str Unit) (f e l : Str)
    (ls1 ls2 : List Str) (h1 : ∀ l' ∈ ls1, translateOne f l' = Except.ok ())
    (h2 : translateOne f l = Except.error e) :
    translateLangsLoop translateOne f (ls1 ++ l :: ls2) =
      (Except.error (wrapErr (gs "failed to translate " ++ f ++ gs " to " ++ l) e),
       ls1.map (fun l' => (f, l')) ++ [(f, l)]) := by
  induction ls1 with
  | nil => simp [translateLangsLoop, h2]
  | cons l' ls1 ih =>
    simp only [List.cons_append, translateLangsLoop, h1 l' (List.mem_cons_self l' ls1),
      List.append_eq]
    rw [ih (fun x hx => h1 x (List.mem_cons_of_mem l' hx))]
    rfl

theorem translateFilesLoop_ok (translateOne : Str → Str → Except Str Unit)
    (files langs : List Str)
    (h : ∀ f ∈ files, ∀ l ∈ langs, translateOne f l = Except.ok ()) :
    translateFilesLoop translateOne files langs =
      (Except.ok (), (files.map (fun f => langs.map (fun l => (f, l)))).flatten) := by
  induction files with
  | nil => rfl
  | cons f fs ih =>
    simp only [translateFilesLoop]
    rw [translateLangsLoop_ok translateOne f langs (h f (List.mem_cons_self f fs))]
    rw [ih (fun f' hf' => h f' (List.mem_cons_of_mem f hf'))]
    simp

/-- C3 counterexample: in the rendering-batch path a failure on the first
policy aborts the whole batch: the second policy is never processed,
contradicting the claim that documents after the failing one are still
processed. -/
theorem c3_counterexample :
    pdfTranslated processFailA (Except.ok batchAB) =
      (some (wrapErr (gs "unable to render translated policy: " ++ gs "A") (gs "boom")),
       [docA]) ∧
    docB ∉ (pdfTranslated processFailA (Except.ok batchAB)).2 := by
  decide

/-- C3 (amended): in both rendering-batch paths the first per-document
failure is reported on the batch's aggregate channel and aborts the whole
batch — no later document is processed; a fully successful batch reports
nil after processing every document in order.  The template-translation
run is likewise fail-fast: the first per-file-per-language failure aborts
with no further languages or files attempted, and `TranslateTemplates`
defers to exactly this loop. -/
theorem c3_failure_propagation :
    (∀ process data,
      (∀ d ∈ data.policies ++ data.procedures ++ data.narratives,
        process d = Except.ok ()) →
      pdfTranslated process (Except.ok data) =
        (none, data.policies ++ data.procedures ++ data.narratives)) ∧
    (∀ process (e : Str) d ds1 ds2 procs narrs,
      (∀ d' ∈ ds1, process d' = Except.ok ()) → process d = Except.error e →
      pdfTranslated process (Except.ok (RenderData.mk (ds1 ++ d :: ds2) procs narrs)) =
        (some (wrapErr (gs "unable to render translated policy: " ++ d.name) e),
         ds1 ++ [d])) ∧
    (∀ process (e : Str) d ds1 ds2 procs narrs,
      (∀ d' ∈ ds1, process d' = Except.ok ()) → process d = Except.error e →
      htmlTranslated process (Except.ok (RenderData.mk (ds1 ++ d :: ds2) procs narrs)) =
        (some (wrapErr (gs "unable to render translated policy HTML: " ++ d.name) e),
         ds1 ++ [d])) ∧
    (∀ translateOne (f l e : Str) ls1 ls2 fs,
      (∀ l' ∈ ls1, translateOne f l' = Except.ok ()) →
      translateOne f l = Except.error e →
      translateFilesLoop translateOne (f :: fs) (ls1 ++ l :: ls2) =
        (Except.error (wrapErr (gs "failed to translate " ++ f ++ gs " to " ++ l) e),
         ls1.map (fun l' => (f, l')) ++ [(f, l)])) ∧
    (∀ translateOne files langs,
      (∀ f ∈ files, ∀ l ∈ langs, translateOne f l = Except.ok ()) →
      translateFilesLoop translateOne files langs =
        (Except.ok (), (files.map (fun f => langs.map (fun l => (f, l)))).flatten)) ∧
    (∀ tc providerArg filesE translateOne files,
      tc.enabled = true → tc.languages.isEmpty = false →
      (if (providerArg : Str).isEmpty then tc.provider else providerArg).isEmpty = false →
      filesE = Except.ok files → files.isEmpty = false →
      TranslateTemplates (some tc) providerArg filesE translateOne =
        translateFilesLoop translateOne files tc.languages) := by
  refine ⟨?_, ?_, ?_, ?_, ?_, ?_⟩
  · intro process data h
    have hp := processDocs_ok process (gs "unable to render translated policy: ")
      data.policies
      (fun d hd => h d (List.mem_append.mpr (Or.inl (List.mem_append.mpr (Or.inl hd)))))
    have hpr := processDocs_ok process (gs "unable to render translated procedure: ")
      data.procedures
      (fun d hd => h d (List.mem_append.mpr (Or.inl (List.mem_append.mpr (Or.inr hd)))))
    have hn := processDocs_ok process (gs "unable to render translated narrative: ")
      data.narratives
      (fun d hd => h d (List.mem_append.mpr (Or.inr hd)))
    simp only [pdfTranslated, hp, hpr, hn]
  · intro process e d ds1 ds2 procs narrs h1 h2
    have hp := processDocs_err process (gs "unable to render translated policy: ")
      e d ds1 ds2 h1 h2
    simp only [pdfTranslated, hp]
  · intro process e d ds1 ds2 procs narrs h1 h2
    have hp := processDocs_err process (gs "unable to render translated policy HTML: ")
      e d ds1 ds2 h1 h2
    simp only [htmlTranslated, hp]
  · intro translateOne f l e ls1 ls2 fs h1 h2
    have hl := translateLangsLoop_err translateOne f e l ls1 ls2 h1 h2
    simp only [translateFilesLoop, hl]
  · intro translateOne files langs h
    exact translateFilesLoop_ok translateOne files langs h
  · intro tc providerArg filesE translateOne files hen hlang hprov hfiles hne
    simp only [TranslateTemplates, hen, Bool.not_true, Bool.false_eq_true, if_false,
      hlang, hprov, hfiles, hne]

/-- C3 witness: the amended theorem applied to a concrete two-policy
batch failing on the second document, and to a concrete file × language
loop failing on the second language of the first of two files. -/
theorem c3_failure_propagation_witness :
    pdfTranslated processFailB
      (Except.ok (RenderData.mk ([docA] ++ docB :: []) [] [])) =
      (some (wrapErr (gs "unable to render translated policy: " ++ docB.name) (gs "boom")),
       [docA] ++ [docB]) ∧
    translateFilesLoop translateFailFr [gs "patch.md", gs "asset.md"]
      ([gs "pt-BR"] ++ gs "fr" :: [gs "de"]) =
      (Except.error (wrapErr (gs "failed to translate " ++ gs "patch.md" ++ gs " to " ++
        gs "fr") (gs "fail")),
       [gs "pt-BR"].map (fun l' => (gs "patch.md", l')) ++ [(gs "patch.md", gs "fr")]) :=
  ⟨c3_failure_propagation.2.1 processFailB (gs "boom") docB [docA] [] [] []
    (by decide) (by decide),
   c3_failure_propagation.2.2.2.1 translateFailFr
    (gs "patch.md") (gs "fr") (gs "fail") [gs "pt-BR"] [gs "de"] [gs "asset.md"]
    (by decide) (by decide)⟩

theorem containsSub_nil (s : Str) : containsSub [] s = true := by
  cases s <;> simp [containsSub, List.isPrefixOf]

theorem containsSub_append_right (pat a b : Str) (h : containsSub pat b = true) :
    containsSub pat (a ++ b) = true := by
  induction a with
  | nil => simpa using h
  | cons x xs ih =>
    simp only [List.cons_append, containsSub, Bool.or_eq_true]
    exact Or.inr ih

theorem containsSub_append_left (pat a b : Str) (h : containsSub pat a = true) :
    containsSub pat (a ++ b) = true := by
  induction a with
  | nil =>
    simp only [containsSub, List.isEmpty_iff] at h
    subst h
    simp [containsSub_nil]
  | cons x xs ih =>
    simp only [containsSub, Bool.or_eq_true] at h
    simp only [List.cons_append, containsSub, Bool.or_eq_true]
    rcases h with h | h
    · exact Or.inl ( List.isPrefixOf_iff_prefix.mpr
        (( List.isPrefixOf_iff_prefix.mp h).trans (List.prefix_append (x :: xs) b)))
    · exact Or.inr (ih h)

set_option maxRecDepth 8000 in
/-- C2 counterexample: in a concrete successful render run the provider
is invoked with the raw section text; neither that text nor the wrapping
compliance prompt contains the structured instruction naming the `name`
and `comment` metadata fields — that instruction occurs only in the
template-translation prompt of `TranslateTemplateDirect`. -/
theorem c2_counterexample :
    Event.providerCalled (gs "# Purpose\na. text.") ∈
      (renderTranslatedDocument renderOpsFixture [] docFixture (gs "output") (gs "es")
        (gs "pdf")).2.2 ∧
    containsSub (gs "Translate the YAML metadata fields")
      (gs "# Purpose\na. text.") = false ∧
    containsSub (gs "Translate the YAML metadata fields")
      (complianceTranslatePrompt (gs "en") (gs "es") (gs "# Purpose\na. text.")) = false ∧
    containsSub (gs "Translate the YAML metadata fields")
      (directPrompt (gs "# Purpose\na. text.") (gs "es")) = true := by
  decide

/-- C2 (amended): the rendering path's `TranslateDocument` invokes the
provider once per translatable section, passing the raw section text;
each provider variant wraps that text in a prompt instructing exact
translation that preserves all formatting, markdown syntax, YAML
frontmatter and technical terms; the structured prompt that singles out
the `name` and `comment` metadata fields belongs to the
template-translation path's `TranslateTemplateDirect`. -/
theorem c2_render_prompt :
    (∀ translate content tx,
      Event.providerCalled tx ∈ (TranslateDocument translate content).2 →
      tx ∈ extractSections content ∧ shouldTranslate tx = true) ∧
    (∀ sourceLang targetLang text,
      containsSub
        (gs "preserving all formatting, markdown syntax, YAML frontmatter, and technical terms")
        (complianceTranslatePrompt sourceLang targetLang text) = true) ∧
    (∀ content targetLang,
      containsSub (gs "Translate the YAML metadata fields")
        (directPrompt content targetLang) = true) := by
  refine ⟨?_, ?_, ?_⟩
  · intro translate content tx hmem
    obtain ⟨tx', heq, hsec, htr⟩ := TranslateDocument_events translate content _ hmem
    cases heq
    exact ⟨hsec, htr⟩
  · intro sourceLang targetLang text
    unfold complianceTranslatePrompt compliancePromptPrefix
    apply containsSub_append_left
    apply containsSub_append_right
    decide
  · intro content targetLang
    unfold directPrompt directPromptPrefix
    apply containsSub_append_left
    apply containsSub_append_left
    apply containsSub_append_left
    apply containsSub_append_left
    apply containsSub_append_left
    apply containsSub_append_left
    apply containsSub_append_left
    decide

/-- C2 witness: the amended theorem applied to the identity provider and
the concrete preprocessed body of the fixture document. -/
theorem c2_render_prompt_witness :
    (gs "# Purpose\na. text.") ∈ extractSections (gs "# Purpose\na. text.") ∧
    shouldTranslate (gs "# Purpose\na. text.") = true :=
  c2_render_prompt.1 (fun s => Except.ok s) (gs "# Purpose\na. text.")
    (gs "# Purpose\na. text.") (by decide)
